import Mathlib

/-!
# Verification of the openfang LLM protocol layer

Shallow embedding of the multi-provider completion layer of `openfang`:
the fallback composer (`drivers/fallback.rs`), the Codex and Gemini
provider adapters (`drivers/codex.rs`, `drivers/gemini.rs`) and the OAuth
credential manager (`codex_oauth.rs`), together with theorems checking the
natural-language specification against this embedding.

Conventions used throughout:
* Rust `String` is Lean `String`; machine integers are `Nat`/`Int`.
* `serde_json::Value` is the `Json` inductive below; `serde_json::Map`
  (keyed object) is an association list of key/value pairs.
* Fallible Rust code returns `Option`/`Except`.
* Network transports are modelled by passing the sequence of wire replies
  (or parsed wire events) as an explicit argument; SSE line framing is
  elided, functions consume the per-event payloads the framing produces.
* `uuid::Uuid::new_v4` (a fresh random id per call) is modelled by an
  explicit generator `gen : Nat → String` together with a counter that is
  threaded through, fresh ids being `gen 0, gen 1, …`; distinctness of
  fresh ids corresponds to injectivity of `gen`.
* `chrono` timestamps are modelled as integers (seconds).
-/

namespace Openfang

/-! ## JSON values (`serde_json::Value`) -/

/-- Model of `serde_json::Value`.  Objects are association lists of
key/value pairs (`serde_json::Map`); number literals with integer syntax
are `num`, other numeric literals (fraction/exponent syntax) are kept as
their lexeme in `numRaw`. -/
inductive Json where
  | null : Json
  | bool (b : Bool) : Json
  | num (n : Int) : Json
  | numRaw (lexeme : String) : Json
  | str (s : String) : Json
  | arr (elems : List Json) : Json
  | obj (fields : List (String × Json)) : Json
deriving Inhabited

namespace Json

/-- `Value::get(key)` on an object (first binding wins, as in a map). -/
def get (v : Json) (key : String) : Option Json :=
  match v with
  | .obj fields =>
    match fields.find? (fun kv => kv.1 = key) with
    | some kv => some kv.2
    | none => none
  | _ => none

/-- `Value::as_str`. -/
def asStr (v : Json) : Option String :=
  match v with
  | .str s => some s
  | _ => none

/-- `Value::as_array`. -/
def asArray (v : Json) : Option (List Json) :=
  match v with
  | .arr xs => some xs
  | _ => none

/-- `Value::is_object`. -/
def isObject (v : Json) : Bool :=
  match v with
  | .obj _ => true
  | _ => false

/-- `Map::insert` on a JSON object's field list: replace the value at an
existing key in place, otherwise append the binding. -/
def insertField (fields : List (String × Json)) (key : String) (v : Json) :
    List (String × Json) :=
  match fields with
  | [] => [(key, v)]
  | kv :: rest =>
    if kv.1 = key then (key, v) :: rest
    else kv :: insertField rest key v

/-- Keys of an object's field list. -/
def fieldKeys (fields : List (String × Json)) : List String :=
  fields.map Prod.fst

end Json


/-! ## String utilities

`str::trim`, `str::split`, `eq_ignore_ascii_case` from the Rust standard
library, implemented over the character list (the library's `String.trim`
etc. are opaque to kernel reduction). -/

/-- Whitespace test used by `str::trim` (ASCII subset). -/
def isWsChar (c : Char) : Bool :=
  c = ' ' ∨ c = '\t' ∨ c = '\n' ∨ c = '\r'

/-- `str::trim`. -/
def strTrim (s : String) : String :=
  String.mk (((s.data.dropWhile isWsChar).reverse.dropWhile isWsChar).reverse)

/-- `str::to_ascii_lowercase` (for `eq_ignore_ascii_case`). -/
def asciiLower (s : String) : String :=
  String.mk (s.data.map (fun c =>
    if 65 ≤ c.toNat ∧ c.toNat ≤ 90 then Char.ofNat (c.toNat + 32) else c))

/-- `str::split(sep)` on a character separator: every separator occurrence
splits, empty segments included. -/
def splitChar (sep : Char) : List Char → List (List Char)
  | [] => [[]]
  | c :: rest =>
    let r := splitChar sep rest
    if c = sep then [] :: r
    else
      match r with
      | h :: t => (c :: h) :: t
      | [] => [[c]]

/-- `str::split` packaged on strings. -/
def strSplit (sep : Char) (s : String) : List String :=
  (splitChar sep s.data).map String.mk

/-! ## Canonical model (`openfang-types`)

Pure data contracts shared by every adapter (spec §3).  The crate that
declares them (`openfang-types`) is outside the shown sources, but the
shapes are fully determined by their uses in the driver sources and by the
spec's data-model section. -/

/-- `StopReason`. -/
inductive StopReason where
  | endTurn
  | maxTokens
  | toolUse
deriving DecidableEq, Inhabited

/-- `TokenUsage`. -/
structure TokenUsage where
  input_tokens : Nat := 0
  output_tokens : Nat := 0
deriving DecidableEq, Inhabited

/-- `ToolCall`. -/
structure ToolCall where
  id : String
  name : String
  input : Json
deriving Inhabited

/-- `ContentBlock`. -/
inductive ContentBlock where
  | text (text : String)
  | image (media_type : String) (data : String)
  | toolUse (id : String) (name : String) (input : Json)
  | toolResult (tool_use_id : String) (content : String) (is_error : Bool)
  | thinking (text : String)
  | unknown
deriving Inhabited

/-- `Role`. -/
inductive Role where
  | system
  | user
  | assistant
deriving DecidableEq, Inhabited

/-- `MessageContent`. -/
inductive MessageContent where
  | text (t : String)
  | blocks (bs : List ContentBlock)
deriving Inhabited

/-- `Message`. -/
structure Message where
  role : Role
  content : MessageContent
deriving Inhabited

/-- `ToolDefinition`. -/
structure ToolDefinition where
  name : String
  description : String
  input_schema : Json
deriving Inhabited

/-- `CompletionRequest`.  The `temperature: f32` field of the source is a
floating-point sampling knob untouched by any claim and is not modelled. -/
structure CompletionRequest where
  model : String
  messages : List Message
  tools : List ToolDefinition
  max_tokens : Nat
  system : Option String
deriving Inhabited

/-- `CompletionResponse`. -/
structure CompletionResponse where
  content : List ContentBlock
  stop_reason : StopReason
  tool_calls : List ToolCall
  usage : TokenUsage
deriving Inhabited

/-- `StreamEvent` (the adapter-produced variants). -/
inductive StreamEvent where
  | textDelta (text : String)
  | toolUseStart (id : String) (name : String)
  | toolInputDelta (text : String)
  | toolUseEnd (id : String) (name : String) (input : Json)
  | thinkingDelta (text : String)
  | contentComplete (stop_reason : StopReason) (usage : TokenUsage)
deriving Inhabited

/-- `LlmError`. -/
inductive LlmError where
  | http (msg : String)
  | api (status : Nat) (message : String)
  | rateLimited (retry_after_ms : Nat)
  | overloaded (retry_after_ms : Nat)
  | parse (msg : String)
  | missingApiKey (msg : String)
deriving DecidableEq, Inhabited

/-! ## Fallback composer (`drivers/fallback.rs`)

`FallbackDriver::complete` and `FallbackDriver::stream` iterate the chain
with identical logic (the two method bodies are line-for-line the same up
to the extra event channel that is merely cloned into each attempt), so a
single function models both.  A driver invocation is modelled by its
outcome: the chain is the list of outcomes the wrapped drivers would
produce for the (cloned) request. -/

/-- Outcome of invoking one wrapped driver. -/
abbrev DriverOutcome := Except LlmError CompletionResponse

/-- The `for` loop of `FallbackDriver::complete`/`stream` with its
`last_error` accumulator, also counting how many drivers were invoked. -/
def fallbackRunGo : List DriverOutcome → Option LlmError → Nat → DriverOutcome × Nat
  | [], lastError, invoked =>
    (Except.error (lastError.getD
      (LlmError.api 0 "No drivers configured in fallback chain")), invoked)
  | d :: rest, _lastError, invoked =>
    match d with
    | Except.ok response => (Except.ok response, invoked + 1)
    | Except.error (LlmError.rateLimited r) =>
      (Except.error (LlmError.rateLimited r), invoked + 1)
    | Except.error (LlmError.overloaded r) =>
      (Except.error (LlmError.overloaded r), invoked + 1)
    | Except.error e => fallbackRunGo rest (some e) (invoked + 1)

/-- `FallbackDriver::complete`/`stream`: returns the final result together
with how many drivers of the chain were invoked. -/
def fallbackRun (drivers : List DriverOutcome) : DriverOutcome × Nat :=
  fallbackRunGo drivers none 0

/-- `true` for the two caller-level retry signals that the composer must
not absorb. -/
def LlmError.isBubbled : LlmError → Bool
  | .rateLimited _ => true
  | .overloaded _ => true
  | _ => false

/-- Chain-of-responsibility reference, written from the spec's words
(§4.4 / §8): return the first success, bubble `RateLimited`/`Overloaded`
immediately, otherwise advance retaining the last error; an empty chain is
the synthetic `Api` with status 0. -/
def chainOfResponsibilitySpec (drivers : List DriverOutcome) : DriverOutcome :=
  match drivers with
  | [] => Except.error (LlmError.api 0 "No drivers configured in fallback chain")
  | d :: rest =>
    match d with
    | Except.ok r => Except.ok r
    | Except.error e =>
      if e.isBubbled then Except.error e
      else if rest.isEmpty then Except.error e
      else chainOfResponsibilitySpec rest

/-- Whether an outcome stops the chain: a success, or a bubbled error. -/
def DriverOutcome.stops (d : DriverOutcome) : Bool :=
  match d with
  | Except.ok _ => true
  | Except.error e => e.isBubbled

/-- Index (0-based) of the first driver whose outcome stops the chain
(success or bubbled error); `none` when every driver fails non-bubbled. -/
def firstStopIndex : List DriverOutcome → Option Nat
  | [] => none
  | d :: rest =>
    if d.stops then some 0 else (firstStopIndex rest).map (· + 1)

/-! The theorems for all claims are collected at the end of the file,
after every definition. -/


/-! ## URL-safe base64 decoding (`base64` crate)

Models `base64::engine::general_purpose::URL_SAFE_NO_PAD` and `URL_SAFE`
decoding: the URL-safe alphabet, canonical-padding enforcement for the
padded engine, rejection of any padding for the unpadded engine, and
rejection of non-zero trailing bits (the crate's defaults). -/

/-- 6-bit value of a URL-safe alphabet character (`A–Z a–z 0–9 - _`). -/
def b64UrlVal (c : Char) : Option Nat :=
  if 65 ≤ c.toNat ∧ c.toNat ≤ 90 then some (c.toNat - 65)
  else if 97 ≤ c.toNat ∧ c.toNat ≤ 122 then some (c.toNat - 97 + 26)
  else if 48 ≤ c.toNat ∧ c.toNat ≤ 57 then some (c.toNat - 48 + 52)
  else if c = '-' then some 62
  else if c = '_' then some 63
  else none

/-- Reassemble 6-bit values into bytes.  A trailing group of one value is
invalid; trailing groups of two or three values must have zero spare bits
(`decode_allow_trailing_bits` is off by default). -/
def b64Assemble : List Nat → Option (List Nat)
  | [] => some []
  | [_] => none
  | [v0, v1] =>
    if v1 % 16 = 0 then some [v0 * 4 + v1 / 16] else none
  | [v0, v1, v2] =>
    if v2 % 4 = 0 then some [v0 * 4 + v1 / 16, v1 % 16 * 16 + v2 / 4] else none
  | v0 :: v1 :: v2 :: v3 :: rest =>
    (b64Assemble rest).map
      (fun bs => (v0 * 4 + v1 / 16) :: (v1 % 16 * 16 + v2 / 4) :: (v2 % 4 * 64 + v3) :: bs)

/-- `URL_SAFE_NO_PAD.decode`: no `=` accepted at all (the alphabet map
already rejects it), length `≡ 1 (mod 4)` rejected by reassembly. -/
def b64UrlDecodeNoPad (s : String) : Option (List Nat) :=
  (s.data.mapM b64UrlVal).bind b64Assemble

/-- `URL_SAFE.decode`: requires canonical padding — total length a
multiple of four, at most two trailing `=`, and exactly enough of them to
complete the final quad. -/
def b64UrlDecodePadded (s : String) : Option (List Nat) :=
  let cs := s.data
  if cs.length % 4 ≠ 0 then none
  else
    let padLen := (cs.reverse.takeWhile (· = '=')).length
    if 2 < padLen then none
    else
      let body := cs.take (cs.length - padLen)
      if padLen ≠ (4 - body.length % 4) % 4 then none
      else (body.mapM b64UrlVal).bind b64Assemble

/-! ## JSON text parsing (`serde_json::from_slice` / `from_str`)

A small recursive-descent parser producing `Json`.  Fidelity notes: the
model decodes ASCII payloads (a non-ASCII byte fails the parse, where
serde accepts any valid UTF-8), and `\uXXXX` escapes outside the surrogate
range are supported without surrogate pairing; both restrictions are
irrelevant to the ASCII payloads the claims concern.  Parsing is
fuel-indexed with fuel larger than the input, so fuel can only run out on
nesting deeper than the input length (which serde's own recursion limit
also rejects). -/

/-- Decode a byte list as ASCII text. -/
def asciiOfBytes (bs : List Nat) : Option (List Char) :=
  if bs.all (· < 128) then some (bs.map Char.ofNat) else none

/-- Skip JSON whitespace. -/
def jsonSkipWs (cs : List Char) : List Char :=
  cs.dropWhile (fun c => c = ' ' ∨ c = '\t' ∨ c = '\n' ∨ c = '\r')

/-- Parse the body of a JSON string after the opening quote, returning the
content and the remainder after the closing quote. -/
def parseStringBody : List Char → Option (List Char × List Char)
  | [] => none
  | c :: rest =>
    if c = '"' then some ([], rest)
    else if c = '\\' then
      match rest with
      | [] => none
      | e :: rest' =>
        let cont (ch : Char) : Option (List Char × List Char) :=
          (parseStringBody rest').map (fun p => (ch :: p.1, p.2))
        if e = '"' then cont '"'
        else if e = '\\' then cont '\\'
        else if e = '/' then cont '/'
        else if e = 'b' then cont (Char.ofNat 8)
        else if e = 'f' then cont (Char.ofNat 12)
        else if e = 'n' then cont '\n'
        else if e = 'r' then cont '\r'
        else if e = 't' then cont '\t'
        else if e = 'u' then
          match rest' with
          | h1 :: h2 :: h3 :: h4 :: rest'' =>
            let hex (h : Char) : Option Nat :=
              if 48 ≤ h.toNat ∧ h.toNat ≤ 57 then some (h.toNat - 48)
              else if 97 ≤ h.toNat ∧ h.toNat ≤ 102 then some (h.toNat - 87)
              else if 65 ≤ h.toNat ∧ h.toNat ≤ 70 then some (h.toNat - 55)
              else none
            match hex h1, hex h2, hex h3, hex h4 with
            | some a, some b, some c', some d =>
              let n := a * 4096 + b * 256 + c' * 16 + d
              if 0xD800 ≤ n ∧ n ≤ 0xDFFF then none
              else (parseStringBody rest'').map (fun p => (Char.ofNat n :: p.1, p.2))
            | _, _, _, _ => none
          | _ => none
        else none
    else if c.toNat < 32 then none
    else (parseStringBody rest).map (fun p => (c :: p.1, p.2))

/-- Split off a run of decimal digits. -/
def takeDigits (cs : List Char) : List Char × List Char :=
  (cs.takeWhile (fun c => 48 ≤ c.toNat ∧ c.toNat ≤ 57),
   cs.dropWhile (fun c => 48 ≤ c.toNat ∧ c.toNat ≤ 57))

/-- Digits to a natural number. -/
def natOfDigits (ds : List Char) : Nat :=
  ds.foldl (fun acc c => acc * 10 + (c.toNat - 48)) 0

/-- Parse a JSON number.  Integer-syntax literals within serde's integer
range become `Json.num`; fraction/exponent syntax (and out-of-range
integers, which serde demotes to floats) keep their lexeme in
`Json.numRaw`. -/
def parseNumber (cs : List Char) : Option (Json × List Char) :=
  let (neg, cs1) :=
    match cs with
    | '-' :: rest => (true, rest)
    | _ => (false, cs)
  let (intDigits, cs2) := takeDigits cs1
  if intDigits.isEmpty then none
  else if 1 < intDigits.length ∧ intDigits.headD '0' = '0' then none
  else
    let fracRes : Option (Bool × List Char) :=
      match cs2 with
      | '.' :: rest =>
        let (ds, r) := takeDigits rest
        if ds.isEmpty then none else some (true, r)
      | _ => some (false, cs2)
    match fracRes with
    | none => none
    | some (hasFrac, cs3) =>
      let expRes : Option (Bool × List Char) :=
        match cs3 with
        | e :: rest =>
          if e = 'e' ∨ e = 'E' then
            let rest2 :=
              match rest with
              | s :: r2 => if s = '+' ∨ s = '-' then r2 else rest
              | [] => rest
            let (ds, r) := takeDigits rest2
            if ds.isEmpty then none else some (true, r)
          else some (false, cs3)
        | [] => some (false, cs3)
      match expRes with
      | none => none
      | some (hasExp, cs4) =>
        let lexeme := String.mk (cs.take (cs.length - cs4.length))
        if hasFrac ∨ hasExp then some (Json.numRaw lexeme, cs4)
        else
          let n : Int :=
            if neg then -(natOfDigits intDigits : Int) else (natOfDigits intDigits : Int)
          if -(2 ^ 63 : Int) ≤ n ∧ n < 2 ^ 64 then some (Json.num n, cs4)
          else some (Json.numRaw lexeme, cs4)

mutual

/-- Parse one JSON value (fuel-indexed). -/
def parseValue : Nat → List Char → Option (Json × List Char)
  | 0, _ => none
  | fuel + 1, cs =>
    match jsonSkipWs cs with
    | [] => none
    | c :: rest =>
      if c = '{' then
        match jsonSkipWs rest with
        | '}' :: rest2 => some (Json.obj [], rest2)
        | rest2 => parseMembers fuel rest2 []
      else if c = '[' then
        match jsonSkipWs rest with
        | ']' :: rest2 => some (Json.arr [], rest2)
        | rest2 => parseElems fuel rest2 []
      else if c = '"' then
        (parseStringBody rest).map (fun p => (Json.str (String.mk p.1), p.2))
      else if c = 't' then
        match rest with
        | 'r' :: 'u' :: 'e' :: rest2 => some (Json.bool true, rest2)
        | _ => none
      else if c = 'f' then
        match rest with
        | 'a' :: 'l' :: 's' :: 'e' :: rest2 => some (Json.bool false, rest2)
        | _ => none
      else if c = 'n' then
        match rest with
        | 'u' :: 'l' :: 'l' :: rest2 => some (Json.null, rest2)
        | _ => none
      else parseNumber (c :: rest)

/-- Parse the members of an object after `{` (at least one expected),
accumulating with map-insert semantics (later duplicate keys replace). -/
def parseMembers (fuel : Nat) (cs : List Char) (acc : List (String × Json)) :
    Option (Json × List Char) :=
  match fuel with
  | 0 => none
  | fuel + 1 =>
    match jsonSkipWs cs with
    | '"' :: rest =>
      match parseStringBody rest with
      | none => none
      | some (key, rest2) =>
        match jsonSkipWs rest2 with
        | ':' :: rest3 =>
          match parseValue fuel rest3 with
          | none => none
          | some (v, rest4) =>
            let acc' := Json.insertField acc (String.mk key) v
            match jsonSkipWs rest4 with
            | ',' :: rest5 => parseMembers fuel rest5 acc'
            | '}' :: rest5 => some (Json.obj acc', rest5)
            | _ => none
        | _ => none
    | _ => none

/-- Parse the elements of an array after `[` (at least one expected). -/
def parseElems (fuel : Nat) (cs : List Char) (acc : List Json) :
    Option (Json × List Char) :=
  match fuel with
  | 0 => none
  | fuel + 1 =>
    match parseValue fuel cs with
    | none => none
    | some (v, rest) =>
      match jsonSkipWs rest with
      | ',' :: rest2 => parseElems fuel rest2 (acc ++ [v])
      | ']' :: rest2 => some (Json.arr (acc ++ [v]), rest2)
      | _ => none

end

/-- `serde_json::from_str::<Value>`: parse a complete JSON document with
nothing but whitespace after it. -/
def parseJson (s : String) : Option Json :=
  match parseValue (s.length * 2 + 8) s.data with
  | some (v, rest) => if (jsonSkipWs rest).isEmpty then some v else none
  | none => none

/-- `serde_json::from_slice::<Value>`: decode bytes as text, then parse. -/
def parseJsonBytes (bs : List Nat) : Option Json :=
  (asciiOfBytes bs).bind (fun cs => parseJson (String.mk cs))


/-! ## JSON serialization (`serde_json::to_string`) -/

/-- Escape one character of a JSON string per `serde_json` (short escapes
for the usual controls, `\u00XX` for other control characters). -/
def jsonEscapeChar (c : Char) : String :=
  if c = '"' then "\\\""
  else if c = '\\' then "\\\\"
  else if c = Char.ofNat 8 then "\\b"
  else if c = '\t' then "\\t"
  else if c = '\n' then "\\n"
  else if c = Char.ofNat 12 then "\\f"
  else if c = '\r' then "\\r"
  else if c.toNat < 32 then
    let hi := c.toNat / 16
    let lo := c.toNat % 16
    let hexDigit (n : Nat) : Char := if n < 10 then Char.ofNat (48 + n) else Char.ofNat (87 + n)
    "\\u00" ++ String.mk [hexDigit hi, hexDigit lo]
  else String.mk [c]

/-- Escape a JSON string body. -/
def jsonEscape (s : String) : String :=
  s.data.foldl (fun acc c => acc ++ jsonEscapeChar c) ""

mutual

/-- Compact serialization of a JSON value (`serde_json::to_string`). -/
def Json.serialize : Json → String
  | .null => "null"
  | .bool true => "true"
  | .bool false => "false"
  | .num n => toString n
  | .numRaw s => s
  | .str s => "\"" ++ jsonEscape s ++ "\""
  | .arr xs => "[" ++ Json.serializeElems xs ++ "]"
  | .obj fs => "\x7b" ++ Json.serializeFields fs ++ "\x7d"

/-- Comma-separated serialization of array elements. -/
def Json.serializeElems : List Json → String
  | [] => ""
  | [x] => Json.serialize x
  | x :: xs => Json.serialize x ++ "," ++ Json.serializeElems xs

/-- Comma-separated serialization of object fields. -/
def Json.serializeFields : List (String × Json) → String
  | [] => ""
  | [kv] => "\"" ++ jsonEscape kv.1 ++ "\":" ++ Json.serialize kv.2
  | kv :: kvs =>
    "\"" ++ jsonEscape kv.1 ++ "\":" ++ Json.serialize kv.2 ++ "," ++
      Json.serializeFields kvs

end

/-! ## Gemini adapter (`drivers/gemini.rs`)

Wire types mirror the `serde` request/response structs; the typed
deserialization `serde_json::from_str::<GeminiResponse>` is spelled out
field-by-field below with serde's defaulting rules. -/

/-- `GeminiInlineData`. -/
structure GeminiInlineData where
  mime_type : String
  data : String
deriving Inhabited

/-- `GeminiFunctionCallData`. -/
structure GeminiFunctionCallData where
  name : String
  args : Json
deriving Inhabited

/-- `GeminiFunctionResponseData`. -/
structure GeminiFunctionResponseData where
  name : String
  response : Json
deriving Inhabited

/-- `GeminiPart` (untagged union). -/
inductive GeminiPart where
  | text (text : String)
  | inlineData (inline_data : GeminiInlineData)
  | functionCall (function_call : GeminiFunctionCallData)
  | functionResponse (function_response : GeminiFunctionResponseData)
deriving Inhabited

/-- `GeminiContent`. -/
structure GeminiContent where
  role : Option String
  parts : List GeminiPart
deriving Inhabited

/-- `GeminiCandidate`. -/
structure GeminiCandidate where
  content : Option GeminiContent
  finish_reason : Option String
deriving Inhabited

/-- `GeminiUsageMetadata` (both counters `#[serde(default)]`). -/
structure GeminiUsageMetadata where
  prompt_token_count : Nat
  candidates_token_count : Nat
deriving Inhabited

/-- `GeminiResponse`. -/
structure GeminiResponse where
  candidates : List GeminiCandidate
  usage_metadata : Option GeminiUsageMetadata
deriving Inhabited

/-- `Value::as_u64` semantics for a field of Rust type `u64`. -/
def Json.asU64 (v : Json) : Option Nat :=
  match v with
  | .num n => if 0 ≤ n ∧ n < 2 ^ 64 then some n.toNat else none
  | _ => none

/-- serde: an `Option<T>` struct field — missing or `null` gives `none`,
anything else must parse with `f`. -/
def jsonOptField (v : Json) (key : String) (f : Json → Option α) :
    Option (Option α) :=
  match v.get key with
  | none => some none
  | some .null => some none
  | some j => (f j).map some

/-- serde: a `#[serde(default)] u64` field — missing gives 0. -/
def jsonNatFieldD (v : Json) (key : String) : Option Nat :=
  match v.get key with
  | none => some 0
  | some j => j.asU64

/-- Untagged `GeminiPart` deserialization: the variants are tried in
declaration order (`Text`, `InlineData`, `FunctionCall`,
`FunctionResponse`), the first whose required fields parse wins. -/
def geminiPartOfJson (v : Json) : Option GeminiPart :=
  if !v.isObject then none
  else
    match (v.get "text").bind Json.asStr with
    | some t => some (GeminiPart.text t)
    | none =>
      match v.get "inlineData" with
      | some d =>
        match (d.get "mimeType").bind Json.asStr, (d.get "data").bind Json.asStr with
        | some mt, some dat => some (GeminiPart.inlineData ⟨mt, dat⟩)
        | _, _ => geminiPartFnOfJson v
      | none => geminiPartFnOfJson v
where
  /-- The `FunctionCall` and `FunctionResponse` variants. -/
  geminiPartFnOfJson (v : Json) : Option GeminiPart :=
    match v.get "functionCall" with
    | some fc =>
      match (fc.get "name").bind Json.asStr, fc.get "args" with
      | some name, some args => some (GeminiPart.functionCall ⟨name, args⟩)
      | _, _ => geminiPartRespOfJson v
    | none => geminiPartRespOfJson v
  /-- The `FunctionResponse` variant. -/
  geminiPartRespOfJson (v : Json) : Option GeminiPart :=
    match v.get "functionResponse" with
    | some fr =>
      match (fr.get "name").bind Json.asStr, fr.get "response" with
      | some name, some resp => some (GeminiPart.functionResponse ⟨name, resp⟩)
      | _, _ => none
    | none => none

/-- `GeminiContent` deserialization (`parts` is required). -/
def geminiContentOfJson (v : Json) : Option GeminiContent :=
  if !v.isObject then none
  else
    match jsonOptField v "role" Json.asStr with
    | none => none
    | some role =>
      match (v.get "parts").bind Json.asArray with
      | none => none
      | some parts => (parts.mapM geminiPartOfJson).map (fun ps => ⟨role, ps⟩)

/-- `GeminiCandidate` deserialization. -/
def geminiCandidateOfJson (v : Json) : Option GeminiCandidate :=
  if !v.isObject then none
  else
    match jsonOptField v "content" geminiContentOfJson with
    | none => none
    | some content =>
      match jsonOptField v "finishReason" Json.asStr with
      | none => none
      | some fr => some ⟨content, fr⟩

/-- `GeminiUsageMetadata` deserialization. -/
def geminiUsageOfJson (v : Json) : Option GeminiUsageMetadata :=
  if !v.isObject then none
  else
    match jsonNatFieldD v "promptTokenCount", jsonNatFieldD v "candidatesTokenCount" with
    | some p, some c => some ⟨p, c⟩
    | _, _ => none

/-- `GeminiResponse` deserialization (`candidates` defaults to empty). -/
def geminiResponseOfJson (v : Json) : Option GeminiResponse :=
  if !v.isObject then none
  else
    let candidates? : Option (List GeminiCandidate) :=
      match v.get "candidates" with
      | none => some []
      | some c => (c.asArray).bind (fun cs => cs.mapM geminiCandidateOfJson)
    match candidates? with
    | none => none
    | some cands =>
      match jsonOptField v "usageMetadata" geminiUsageOfJson with
      | none => none
      | some usage => some ⟨cands, usage⟩

/-- `serde_json::from_str::<GeminiResponse>`. -/
def parseGeminiResponse (s : String) : Option GeminiResponse :=
  (parseJson s).bind geminiResponseOfJson

/-- `extract_system`: explicit system field first, else the first
system-role message with plain-text content. -/
def extract_system (messages : List Message) (system : Option String) :
    Option GeminiContent :=
  (system.orElse (fun _ =>
    messages.findSome? (fun m =>
      if m.role = Role.system then
        match m.content with
        | .text t => some t
        | _ => none
      else none))).map
    (fun text => { role := none, parts := [GeminiPart.text text] })

/-- One block of the `MessageContent::Blocks` conversion inside
`convert_messages`. -/
def geminiBlockPartStep (parts : List GeminiPart) (block : ContentBlock) :
    List GeminiPart :=
  match block with
  | .text t => parts ++ [GeminiPart.text t]
  | .toolUse _ name input =>
    parts ++ [GeminiPart.functionCall ⟨name, input⟩]
  | .image media_type data =>
    parts ++ [GeminiPart.inlineData ⟨media_type, data⟩]
  | .toolResult _ content _ =>
    parts ++ [GeminiPart.functionResponse
      ⟨"", Json.obj [("result", Json.str content)]⟩]
  | .thinking _ => parts
  | .unknown => parts

/-- Per-block conversion inside `convert_messages` (the
`MessageContent::Blocks` arm). -/
def geminiPartsOfBlocks (blocks : List ContentBlock) : List GeminiPart :=
  blocks.foldl geminiBlockPartStep []

/-- `convert_messages`: canonical messages to Gemini content entries plus
the separate system instruction. -/
def convert_messages (messages : List Message) (system : Option String) :
    List GeminiContent × Option GeminiContent :=
  let system_instruction := extract_system messages system
  let contents := messages.foldl
    (fun contents msg =>
      match msg.role with
      | Role.system => contents
      | _ =>
        let role := match msg.role with
          | Role.user => "user"
          | _ => "model"
        let parts := match msg.content with
          | .text t => [GeminiPart.text t]
          | .blocks bs => geminiPartsOfBlocks bs
        if parts.isEmpty then contents
        else contents ++ [{ role := some role, parts := parts }])
    []
  (contents, system_instruction)

/-- The fresh tool-call id `format!("call_{}", Uuid::new_v4().simple())`,
with the uuid supply modelled by `gen` at counter `ctr`. -/
def mkCallId (gen : Nat → String) (ctr : Nat) : String :=
  "call_" ++ gen ctr

/-- The part-walking loop of `convert_response` over the first
candidate's content: collected blocks, tool calls, and the advanced uuid
counter. -/
def geminiCandidateParts (gen : Nat → String) (ctr : Nat)
    (content? : Option GeminiContent) :
    List ContentBlock × List ToolCall × Nat :=
  match content? with
  | none => (([] : List ContentBlock), ([] : List ToolCall), ctr)
  | some gemini_content =>
    gemini_content.parts.foldl
      (fun (acc : List ContentBlock × List ToolCall × Nat) (part : GeminiPart) =>
        let (content, tool_calls, ctr) := acc
        match part with
        | .text t =>
          if t ≠ "" then (content ++ [ContentBlock.text t], tool_calls, ctr)
          else acc
        | .functionCall fc =>
          let id := mkCallId gen ctr
          (content ++ [ContentBlock.toolUse id fc.name fc.args],
           tool_calls ++ [ToolCall.mk id fc.name fc.args], ctr + 1)
        | .inlineData _ => acc
        | .functionResponse _ => acc)
      ([], [], ctr)

/-- `convert_response`: first candidate only, text and function-call parts
collected, stop reason forced to `ToolUse` when any call was found. -/
def convert_response (gen : Nat → String) (ctr : Nat) (resp : GeminiResponse) :
    Except LlmError CompletionResponse :=
  match resp.candidates with
  | [] => Except.error (LlmError.parse "No candidates in Gemini response")
  | candidate :: _ =>
    let st := geminiCandidateParts gen ctr candidate.content
    let content := st.1
    let tool_calls := st.2.1
    let stop_reason :=
      if !tool_calls.isEmpty then StopReason.toolUse
      else
        match candidate.finish_reason with
        | some fr => if fr = "MAX_TOKENS" then StopReason.maxTokens else StopReason.endTurn
        | none => StopReason.endTurn
    let usage :=
      match resp.usage_metadata with
      | some u => { input_tokens := u.prompt_token_count,
                    output_tokens := u.candidates_token_count : TokenUsage }
      | none => {}
    Except.ok { content := content, stop_reason := stop_reason,
                tool_calls := tool_calls, usage := usage }

/-- `GeminiDriver::complete` error-body handling: the structured
`error.message` field if the body parses as a `GeminiErrorResponse`, else
the raw body. -/
def geminiErrorMessage (body : String) : String :=
  match ((parseJson body).bind (fun v => v.get "error")).bind
      (fun e => (e.get "message").bind Json.asStr) with
  | some m => m
  | none => body

/-! ### Gemini streaming state machine (`GeminiDriver::stream`) -/

/-- Mutable state of the SSE processing loop in `GeminiDriver::stream`,
extended with the trace of emitted events and the uuid-supply counter. -/
structure GeminiStreamState where
  text_content : String
  fn_calls : List (String × Json)
  finish_reason : Option String
  usage : TokenUsage
  events : List StreamEvent
  ctr : Nat
deriving Inhabited

/-- Initial stream state. -/
def geminiInitState (ctr : Nat) : GeminiStreamState :=
  { text_content := "", fn_calls := [], finish_reason := none,
    usage := {}, events := [], ctr := ctr }

/-- Handling of one part of a streamed candidate. -/
def geminiProcessPart (gen : Nat → String) (st : GeminiStreamState)
    (part : GeminiPart) : GeminiStreamState :=
  match part with
  | .text t =>
    if t ≠ "" then
      { st with text_content := st.text_content ++ t,
                events := st.events ++ [StreamEvent.textDelta t] }
    else st
  | .functionCall fc =>
    let id := mkCallId gen st.ctr
    let args_str := fc.args.serialize
    { st with
      events := st.events ++
        [StreamEvent.toolUseStart id fc.name,
         StreamEvent.toolInputDelta args_str,
         StreamEvent.toolUseEnd id fc.name fc.args],
      fn_calls := st.fn_calls ++ [(fc.name, fc.args)],
      ctr := st.ctr + 1 }
  | .inlineData _ => st
  | .functionResponse _ => st

/-- Handling of one streamed candidate. -/
def geminiProcessCandidate (gen : Nat → String) (st : GeminiStreamState)
    (candidate : GeminiCandidate) : GeminiStreamState :=
  let st :=
    match candidate.finish_reason with
    | some fr => { st with finish_reason := some fr }
    | none => st
  match candidate.content with
  | some content => content.parts.foldl (geminiProcessPart gen) st
  | none => st

/-- Handling of one SSE `data:` payload: unparsable or empty data is
skipped, usage is taken from every chunk that carries it (last wins). -/
def geminiProcessChunk (gen : Nat → String) (st : GeminiStreamState)
    (data : String) : GeminiStreamState :=
  if data = "" then st
  else
    match parseGeminiResponse data with
    | none => st
    | some json =>
      let st :=
        match json.usage_metadata with
        | some u =>
          { st with usage := { input_tokens := u.prompt_token_count,
                               output_tokens := u.candidates_token_count } }
        | none => st
      json.candidates.foldl (geminiProcessCandidate gen) st

/-- The final-response loop of `GeminiDriver::stream` over the collected
`(name, args)` calls: content, tool calls (with freshly drawn ids) and
the advanced counter. -/
def geminiFinalCalls (gen : Nat → String) (content₀ : List ContentBlock)
    (ctr : Nat) (fn_calls : List (String × Json)) :
    List ContentBlock × List ToolCall × Nat :=
  fn_calls.foldl
    (fun (acc : List ContentBlock × List ToolCall × Nat) nameArgs =>
      let (content, tool_calls, ctr) := acc
      let id := mkCallId gen ctr
      (content ++ [ContentBlock.toolUse id nameArgs.1 nameArgs.2],
       tool_calls ++ [ToolCall.mk id nameArgs.1 nameArgs.2], ctr + 1))
    (content₀, [], ctr)

/-- End-of-stream finalization: build the response (fresh ids are drawn
again for the collected calls), emit the terminal `ContentComplete`. -/
def geminiFinalize (gen : Nat → String) (st : GeminiStreamState) :
    List StreamEvent × CompletionResponse × Nat :=
  let content₀ : List ContentBlock :=
    if st.text_content ≠ "" then [ContentBlock.text st.text_content] else []
  let fin := geminiFinalCalls gen content₀ st.ctr st.fn_calls
  let tool_calls := fin.2.1
  let stop_reason :=
    match st.finish_reason with
    | some fr =>
      if fr = "STOP" then StopReason.endTurn
      else if fr = "MAX_TOKENS" then StopReason.maxTokens
      else if fr = "SAFETY" then StopReason.endTurn
      else if !tool_calls.isEmpty then StopReason.toolUse
      else StopReason.endTurn
    | none =>
      if !tool_calls.isEmpty then StopReason.toolUse else StopReason.endTurn
  let events := st.events ++ [StreamEvent.contentComplete stop_reason st.usage]
  (events,
   { content := fin.1, stop_reason := stop_reason,
     tool_calls := tool_calls, usage := st.usage },
   fin.2.2)

/-- The whole SSE phase of `GeminiDriver::stream` over the list of
`data:` payloads, from uuid counter `ctr`: the emitted event trace, the
returned response, and the final counter. -/
def geminiStreamRun (gen : Nat → String) (ctr : Nat) (chunks : List String) :
    List StreamEvent × CompletionResponse × Nat :=
  geminiFinalize gen (chunks.foldl (geminiProcessChunk gen) (geminiInitState ctr))

/-! ### Gemini retry loops -/

/-- Trace of one `complete`/`stream` call: the result, the number of HTTP
requests issued, and the backoff sleeps performed (in ms). -/
structure GeminiCallTrace where
  result : Except LlmError CompletionResponse
  requests : Nat
  sleeps : List Nat
deriving Inhabited

/-- The events emitted alongside a `stream` call's trace. -/
structure GeminiStreamTrace where
  trace : GeminiCallTrace
  events : List StreamEvent
deriving Inhabited

/-- One wire reply to an attempt: HTTP status and body text (for the
streaming path the body is the list of SSE `data:` payloads). -/
structure WireReply where
  status : Nat
  body : String
deriving Inhabited

/-- `resp.status().is_success()`. -/
def httpIsSuccess (status : Nat) : Bool :=
  200 ≤ status ∧ status ≤ 299

/-- The attempt numbers of the retry loop, `for attempt in 0..=max_retries`
with `max_retries = 3`. -/
def geminiAttemptNumbers : List Nat := [0, 1, 2, 3]

/-- The retry loop of `GeminiDriver::complete` over the remaining attempt
numbers.  The empty case is the statement after the loop, reached only if
every iteration `continue`d. -/
def geminiCompleteLoop (gen : Nat → String) (replies : Nat → WireReply) :
    List Nat → GeminiCallTrace
  | [] =>
    { result := Except.error (LlmError.api 0 "Max retries exceeded"),
      requests := 0, sleeps := [] }
  | attempt :: restAttempts =>
    let reply := replies attempt
    if reply.status = 429 ∨ reply.status = 503 then
      if attempt < 3 then
        let t := geminiCompleteLoop gen replies restAttempts
        { t with requests := t.requests + 1,
                 sleeps := (attempt + 1) * 2000 :: t.sleeps }
      else if reply.status = 429 then
        { result := Except.error (LlmError.rateLimited 5000), requests := 1, sleeps := [] }
      else
        { result := Except.error (LlmError.overloaded 5000), requests := 1, sleeps := [] }
    else if !httpIsSuccess reply.status then
      { result := Except.error (LlmError.api reply.status (geminiErrorMessage reply.body)),
        requests := 1, sleeps := [] }
    else
      match parseGeminiResponse reply.body with
      | none =>
        -- `serde_json::from_str` failure surfaces as `Parse` (the serde
        -- error text itself is not modelled).
        { result := Except.error (LlmError.parse "invalid Gemini response body"),
          requests := 1, sleeps := [] }
      | some gemini_response =>
        { result := convert_response gen 0 gemini_response, requests := 1, sleeps := [] }

/-- `GeminiDriver::complete`. -/
def geminiComplete (gen : Nat → String) (replies : Nat → WireReply) :
    GeminiCallTrace :=
  geminiCompleteLoop gen replies geminiAttemptNumbers

/-- One wire reply for the streaming path: status, error body (read only
on a non-2xx reply) and the SSE `data:` payloads of the body stream. -/
structure StreamWireReply where
  status : Nat
  body : String
  chunks : List String
deriving Inhabited

/-- The retry loop of `GeminiDriver::stream` (same shape as `complete`). -/
def geminiStreamLoop (gen : Nat → String) (replies : Nat → StreamWireReply) :
    List Nat → GeminiStreamTrace
  | [] =>
    { trace := { result := Except.error (LlmError.api 0 "Max retries exceeded")
                 requests := 0
                 sleeps := [] }
      events := [] }
  | attempt :: restAttempts =>
    let reply := replies attempt
    if reply.status = 429 ∨ reply.status = 503 then
      if attempt < 3 then
        let t := geminiStreamLoop gen replies restAttempts
        let trace' : GeminiCallTrace :=
          { result := t.trace.result
            requests := t.trace.requests + 1
            sleeps := (attempt + 1) * 2000 :: t.trace.sleeps }
        { trace := trace', events := t.events }
      else if reply.status = 429 then
        { trace := { result := Except.error (LlmError.rateLimited 5000)
                     requests := 1
                     sleeps := [] }
          events := [] }
      else
        { trace := { result := Except.error (LlmError.overloaded 5000)
                     requests := 1
                     sleeps := [] }
          events := [] }
    else if !httpIsSuccess reply.status then
      { trace := { result :=
                     Except.error (LlmError.api reply.status (geminiErrorMessage reply.body))
                   requests := 1
                   sleeps := [] }
        events := [] }
    else
      let run := geminiStreamRun gen 0 reply.chunks
      { trace := { result := Except.ok run.2.1, requests := 1, sleeps := [] }
        events := run.1 }

/-- `GeminiDriver::stream`. -/
def geminiStream (gen : Nat → String) (replies : Nat → StreamWireReply) :
    GeminiStreamTrace :=
  geminiStreamLoop gen replies geminiAttemptNumbers



/-! ## Codex adapter (`drivers/codex.rs`) -/

/-- Association-list lookup (`HashMap::get`). -/
def assocGet : List (String × α) → String → Option α
  | [], _ => none
  | kv :: rest, k => if kv.1 = k then some kv.2 else assocGet rest k

/-- Association-list insert (`HashMap::insert`): replace in place or
append. -/
def assocInsert (m : List (String × α)) (k : String) (v : α) :
    List (String × α) :=
  match m with
  | [] => [(k, v)]
  | kv :: rest => if kv.1 = k then (k, v) :: rest else kv :: assocInsert rest k v

/-- `HashSet::insert`: whether the element was newly inserted, and the
updated set. -/
def setInsert (s : List String) (x : String) : Bool × List String :=
  if x ∈ s then (false, s) else (true, s ++ [x])

/-- `parse_jwt_payload` — identical in `codex_oauth.rs` and
`CodexDriver::parse_jwt_payload`: split on dots, base64url-decode the
second segment (unpadded engine first, then the padded engine), parse the
bytes as JSON. -/
def parse_jwt_payload (jwt : String) : Option Json :=
  match strSplit '.' jwt with
  | _ :: p1 :: _ =>
    ((b64UrlDecodeNoPad p1).orElse (fun _ => b64UrlDecodePadded p1)).bind parseJsonBytes
  | _ => none

/-- `s.trim()` then keep only non-empty results (the
`.map(str::trim).filter(|s| !s.is_empty())` idiom). -/
def trimNonEmpty (s : String) : Option String :=
  if strTrim s ≠ "" then some (strTrim s) else none

/-- `jwt_chatgpt_account_id` (`codex_oauth.rs`) — identical to
`CodexDriver::account_id_from_access_token`: three claim locations in
priority order. -/
def jwt_chatgpt_account_id (token : String) : Option String :=
  (parse_jwt_payload token).bind (fun payload =>
    (((payload.get "https://api.openai.com/auth.chatgpt_account_id").bind
        Json.asStr).bind trimNonEmpty).orElse (fun _ =>
      (((payload.get "chatgpt_account_id").bind Json.asStr).bind
          trimNonEmpty).orElse (fun _ =>
        (((payload.get "https://api.openai.com/auth").bind (fun auth =>
            if auth.isObject then (auth.get "chatgpt_account_id").bind Json.asStr
            else none)).bind trimNonEmpty))))

/-- First non-empty (after trim) string element of an `aud` array. -/
def audFirstNonEmpty (elems : List Json) : Option String :=
  elems.findSome? (fun v => (v.asStr).bind trimNonEmpty)

/-- `jwt_client_id_from_id_token`: a string `aud` wins if non-empty after
trimming; an array `aud` yields its first non-empty string element
(trimmed); anything else yields nothing. -/
def jwt_client_id_from_id_token (id_token : String) : Option String :=
  (parse_jwt_payload id_token).bind (fun payload =>
    (payload.get "aud").bind (fun aud =>
      match aud.asStr with
      | some s =>
        if strTrim s ≠ "" then some (strTrim s) else (aud.asArray).bind audFirstNonEmpty
      | none => (aud.asArray).bind audFirstNonEmpty))

/-- `jwt_scope_from_token`: a non-empty `scope` string claim, else the
non-empty entries of an `scp` array joined by spaces. -/
def jwt_scope_from_token (token : String) : Option String :=
  (parse_jwt_payload token).bind (fun payload =>
    (((payload.get "scope").bind Json.asStr).bind trimNonEmpty).orElse (fun _ =>
      ((payload.get "scp").bind Json.asArray).bind (fun arr =>
        let parts := arr.filterMap (fun v => (v.asStr).bind trimNonEmpty)
        if !parts.isEmpty then some (" ".intercalate parts) else none)))

/-- `CodexDriver::push_user_message`. -/
def push_user_message (input_items : List Json) (text_parts : List String)
    (image_parts : List Json) : List Json :=
  let content :=
    (text_parts.filter (fun t => t ≠ "")).map
      (fun text => Json.obj [("type", Json.str "input_text"), ("text", Json.str text)])
      ++ image_parts
  if content.isEmpty then input_items
  else
    input_items ++ [Json.obj
      [("type", Json.str "message"), ("role", Json.str "user"),
       ("content", Json.arr content)]]

/-- One block of the `(Role::User, MessageContent::Blocks)` arm of
`build_input_items`: a `ToolResult` block pushes a `function_call_output`
item directly (but only for a `tool_use_id` already in `seen_call_ids`);
text and images are gathered for one user message appended afterwards. -/
def codexUserBlockStep (seen_call_ids : List String)
    (acc : List Json × List String × List Json) (block : ContentBlock) :
    List Json × List String × List Json :=
  let (items, text_parts, image_parts) := acc
  match block with
  | .text t =>
    if t ≠ "" then (items, text_parts ++ [t], image_parts)
    else acc
  | .image media_type data =>
    (items, text_parts,
     image_parts ++ [Json.obj
       [("type", Json.str "input_image"), ("detail", Json.str "auto"),
        ("image_url", Json.str ("data:" ++ media_type ++ ";base64," ++ data))]])
  | .toolResult tool_use_id content _ =>
    if tool_use_id ∈ seen_call_ids then
      (items ++ [Json.obj
        [("type", Json.str "function_call_output"),
         ("call_id", Json.str tool_use_id),
         ("output", Json.str content)]],
       text_parts, image_parts)
    else acc
  | .thinking _ => acc
  | .toolUse _ _ _ => acc
  | .unknown => acc

/-- The whole `(Role::User, MessageContent::Blocks)` arm. -/
def codexUserBlocks (input_items : List Json) (seen_call_ids : List String)
    (blocks : List ContentBlock) : List Json :=
  let st := blocks.foldl (codexUserBlockStep seen_call_ids) (input_items, [], [])
  push_user_message st.1 st.2.1 st.2.2

/-- One block of the `(Role::Assistant, MessageContent::Blocks)` arm of
`build_input_items`: a `ToolUse` block records its id in `seen_call_ids`
and pushes a `function_call` item; text parts are joined into one
assistant message appended afterwards. -/
def codexAssistantBlockStep (acc : List Json × List String × List String)
    (block : ContentBlock) : List Json × List String × List String :=
  let (items, seen, text_parts) := acc
  match block with
  | .text t =>
    if t ≠ "" then (items, seen, text_parts ++ [t]) else acc
  | .toolUse id name input =>
    (items ++ [Json.obj
      [("type", Json.str "function_call"), ("call_id", Json.str id),
       ("name", Json.str name),
       ("arguments", Json.str input.serialize)]],
     seen ++ [id], text_parts)
  | .thinking _ => acc
  | .image _ _ => acc
  | .toolResult _ _ _ => acc
  | .unknown => acc

/-- The whole `(Role::Assistant, MessageContent::Blocks)` arm. -/
def codexAssistantBlocks (input_items : List Json) (seen_call_ids : List String)
    (blocks : List ContentBlock) : List Json × List String :=
  let st := blocks.foldl codexAssistantBlockStep (input_items, seen_call_ids, [])
  let items := st.1
  let seen := st.2.1
  let text_parts := st.2.2
  if !text_parts.isEmpty then
    (items ++ [Json.obj
      [("type", Json.str "message"), ("role", Json.str "assistant"),
       ("content", Json.arr [Json.obj
         [("type", Json.str "output_text"),
          ("text", Json.str (String.join text_parts))]])]],
     seen)
  else (items, seen)

/-- One message of the `build_input_items` loop. -/
def buildInputStep (acc : List Json × List String) (msg : Message) :
    List Json × List String :=
  let (input_items, seen_call_ids) := acc
  match msg.role, msg.content with
  | Role.system, _ => acc
  | Role.user, .text text =>
    let text := strTrim text
    if text = "" then acc
    else
      (input_items ++ [Json.obj
        [("type", Json.str "message"), ("role", Json.str "user"),
         ("content", Json.arr [Json.obj
           [("type", Json.str "input_text"), ("text", Json.str text)]])]],
       seen_call_ids)
  | Role.assistant, .text text =>
    let text := strTrim text
    if text = "" then acc
    else
      (input_items ++ [Json.obj
        [("type", Json.str "message"), ("role", Json.str "assistant"),
         ("content", Json.arr [Json.obj
           [("type", Json.str "output_text"), ("text", Json.str text)]])]],
       seen_call_ids)
  | Role.user, .blocks blocks =>
    (codexUserBlocks input_items seen_call_ids blocks, seen_call_ids)
  | Role.assistant, .blocks blocks =>
    codexAssistantBlocks input_items seen_call_ids blocks

/-- `CodexDriver::build_input_items`. -/
def build_input_items (request : CompletionRequest) : List Json :=
  let st := request.messages.foldl buildInputStep ([], [])
  let input_items := st.1
  if input_items.isEmpty then
    [Json.obj
      [("type", Json.str "message"), ("role", Json.str "user"),
       ("content", Json.arr [Json.obj
         [("type", Json.str "input_text"), ("text", Json.str "Continue.")]])]]
  else input_items

mutual

/-- `CodexDriver::enforce_strict_object_schema`.  The source inserts
`additionalProperties`/`required` on the node first and then recurses into
its children; the two inserted keys are disjoint from the recursed keys
(`properties`, `items`, `anyOf`, `oneOf`, `allOf`) and the recursion
leaves keys unchanged, so recursing first and inserting afterwards (as
below, for structural termination) yields the identical result. -/
def enforce_strict_object_schema : Json → Json
  | .obj fields =>
    let recursed := enforceSchemaFields fields
    let is_object :=
      (match (Json.obj recursed).get "type" with
        | some t => t.asStr = some "object"
        | none => false)
      || recursed.any (fun kv => kv.1 = "properties")
    if is_object then
      let required_keys :=
        match (Json.obj recursed).get "properties" with
        | some (.obj props) => (Json.fieldKeys props).map Json.str
        | _ => []
      Json.obj (Json.insertField
        (Json.insertField recursed "additionalProperties" (Json.bool false))
        "required" (Json.arr required_keys))
    else Json.obj recursed
  | v => v

/-- Per-field recursion of `enforce_strict_object_schema`: the value under
`properties` (child values), `items` (object or array form) and
`anyOf`/`oneOf`/`allOf` (array elements). -/
def enforceSchemaFields : List (String × Json) → List (String × Json)
  | [] => []
  | (k, v) :: rest =>
    let v' :=
      if k = "properties" then
        match v with
        | .obj props => Json.obj (enforceSchemaValues props)
        | _ => v
      else if k = "items" then
        match v with
        | .obj fs => enforce_strict_object_schema (Json.obj fs)
        | .arr xs => Json.arr (enforceSchemaList xs)
        | _ => v
      else if k = "anyOf" ∨ k = "oneOf" ∨ k = "allOf" then
        match v with
        | .arr xs => Json.arr (enforceSchemaList xs)
        | _ => v
      else v
    (k, v') :: enforceSchemaFields rest

/-- Recursion into each value of a `properties` map. -/
def enforceSchemaValues : List (String × Json) → List (String × Json)
  | [] => []
  | (k, v) :: rest => (k, enforce_strict_object_schema v) :: enforceSchemaValues rest

/-- Recursion into each element of a schema array. -/
def enforceSchemaList : List Json → List Json
  | [] => []
  | x :: xs => enforce_strict_object_schema x :: enforceSchemaList xs

end

/-- The `is_object` test of `enforce_strict_object_schema`:
`type == "object"` or a `properties` key is present. -/
def schemaIsObject (fields : List (String × Json)) : Bool :=
  (match (Json.obj fields).get "type" with
    | some t => t.asStr = some "object"
    | none => false)
  || fields.any (fun kv => kv.1 = "properties")

/-- Keys of the object under `properties`, if any. -/
def schemaPropKeys (fields : List (String × Json)) : List String :=
  match (Json.obj fields).get "properties" with
  | some (.obj props) => Json.fieldKeys props
  | _ => []

/-- The `required` array written by the enforcement: the property keys as
JSON strings. -/
def schemaRequiredKeys (fields : List (String × Json)) : List Json :=
  (schemaPropKeys fields).map Json.str

/-- The per-node step of `enforce_strict_object_schema` applied after the
child recursion: insert `additionalProperties=false` and `required` when
the node is object-like. -/
def enforceObjFinish (recursed : List (String × Json)) : Json :=
  if schemaIsObject recursed then
    Json.obj (Json.insertField
      (Json.insertField recursed "additionalProperties" (Json.bool false))
      "required" (Json.arr (schemaRequiredKeys recursed)))
  else Json.obj recursed

/-- The per-entry value rewrite of `enforceSchemaFields`, factored out so
its cons equation can be rewritten without unfolding the mutual block. -/
def enforceEntry (k : String) (v : Json) : Json :=
  if k = "properties" then
    match v with
    | .obj props => Json.obj (enforceSchemaValues props)
    | _ => v
  else if k = "items" then
    match v with
    | .obj fs => enforce_strict_object_schema (Json.obj fs)
    | .arr xs => Json.arr (enforceSchemaList xs)
    | _ => v
  else if k = "anyOf" ∨ k = "oneOf" ∨ k = "allOf" then
    match v with
    | .arr xs => Json.arr (enforceSchemaList xs)
    | _ => v
  else v

/-- `CodexDriver::build_tools`.  `normalize` stands for
`openfang_types::tool::normalize_schema_for_provider(_, "openai")`, whose
crate is outside the shown sources; every claim about the result holds for
an arbitrary `normalize`. -/
def build_tools (normalize : Json → Json) (tools : List ToolDefinition) :
    List Json :=
  tools.map (fun t =>
    let schema := enforce_strict_object_schema (normalize t.input_schema)
    Json.obj
      [("type", Json.str "function"), ("name", Json.str t.name),
       ("description", Json.str t.description), ("parameters", schema)])

/-! ### Codex streaming state machine (`CodexDriver::run_completion`)

The SSE framing (`event:`/`data:` line accumulation, `[DONE]` and
unparsable payloads skipped) is elided: the machine consumes the parsed
`(event name, data)` pairs the framing dispatches. -/

/-- `CodexDriver::usage_from_response`. -/
def usage_from_response (response : Json) : TokenUsage :=
  let usage : Option Json :=
    match response.get "usage" with
    | some (.obj fs) => some (Json.obj fs)
    | _ => none
  { input_tokens := ((usage.bind (fun u => u.get "input_tokens")).bind Json.asU64).getD 0,
    output_tokens := ((usage.bind (fun u => u.get "output_tokens")).bind Json.asU64).getD 0 }

/-- Mutable state of the SSE loop in `run_completion`, extended with the
trace of emitted events. -/
structure CodexStreamState where
  text_accum : String
  tool_meta : List (String × (String × String))
  tool_args : List (String × String)
  started_item_ids : List String
  ended_call_ids : List String
  fallback_tool_calls : List ToolCall
  fallback_usage : TokenUsage
  completed_response : Option Json
  events : List StreamEvent
deriving Inhabited

/-- Initial Codex stream state. -/
def codexInitState : CodexStreamState :=
  { text_accum := "", tool_meta := [], tool_args := [],
    started_item_ids := [], ended_call_ids := [],
    fallback_tool_calls := [], fallback_usage := {},
    completed_response := none, events := [] }

/-- `(call_id, name)` extraction shared by the `output_item.added` and
`output_item.done` arms: `call_id` falls back to `id`. -/
def codexItemCallId (item : Json) : String :=
  (((item.get "call_id").bind Json.asStr).orElse
    (fun _ => (item.get "id").bind Json.asStr)).getD ""

/-- The `response.output_text.delta` arm of `run_completion`. -/
def codexTextDeltaArm (st : CodexStreamState) (json : Json) : CodexStreamState :=
  match (json.get "delta").bind Json.asStr with
  | some delta =>
    if delta ≠ "" then
      { st with text_accum := st.text_accum ++ delta,
                events := st.events ++ [StreamEvent.textDelta delta] }
    else st
  | none => st

/-- The `response.output_item.added` arm of `run_completion`. -/
def codexItemAddedArm (st : CodexStreamState) (json : Json) : CodexStreamState :=
  match json.get "item" with
  | some item =>
    if item.isObject then
      let item_type := ((item.get "type").bind Json.asStr).getD ""
      if item_type = "function_call" then
        let item_id := ((item.get "id").bind Json.asStr).getD ""
        let call_id := codexItemCallId item
        let name := ((item.get "name").bind Json.asStr).getD ""
        if item_id ≠ "" then
          let st := { st with
            tool_meta := assocInsert st.tool_meta item_id (call_id, name) }
          let ins := setInsert st.started_item_ids item_id
          if ins.1 then
            { st with started_item_ids := ins.2,
                      events := st.events ++ [StreamEvent.toolUseStart call_id name] }
          else { st with started_item_ids := ins.2 }
        else st
      else st
    else st
  | none => st

/-- The `response.function_call_arguments.delta` arm of `run_completion`. -/
def codexArgsDeltaArm (st : CodexStreamState) (json : Json) : CodexStreamState :=
  let item_id := ((json.get "item_id").bind Json.asStr).getD ""
  let delta := ((json.get "delta").bind Json.asStr).getD ""
  let st :=
    if item_id ≠ "" then
      { st with tool_args :=
          match assocGet st.tool_args item_id with
          | some s => assocInsert st.tool_args item_id (s ++ delta)
          | none => assocInsert st.tool_args item_id delta }
    else st
  if delta ≠ "" then
    { st with events := st.events ++ [StreamEvent.toolInputDelta delta] }
  else st

/-- The `response.function_call_arguments.done` arm of `run_completion`. -/
def codexArgsDoneArm (st : CodexStreamState) (json : Json) : CodexStreamState :=
  let item_id := ((json.get "item_id").bind Json.asStr).getD ""
  let args_str := ((json.get "arguments").bind Json.asStr).getD "\x7b\x7d"
  if item_id ≠ "" then
    let st := { st with tool_args := assocInsert st.tool_args item_id args_str }
    match assocGet st.tool_meta item_id with
    | some callName =>
      let ins := setInsert st.ended_call_ids callName.1
      if ins.1 then
        let input := (parseJson args_str).getD (Json.obj [])
        { st with ended_call_ids := ins.2,
                  events := st.events ++
                    [StreamEvent.toolUseEnd callName.1 callName.2 input] }
      else { st with ended_call_ids := ins.2 }
    | none => st
  else st

/-- The `response.output_item.done` arm of `run_completion`. -/
def codexItemDoneArm (st : CodexStreamState) (json : Json) : CodexStreamState :=
  match json.get "item" with
  | some item =>
    if item.isObject then
      let item_type := ((item.get "type").bind Json.asStr).getD ""
      if item_type = "function_call" then
        let call_id := codexItemCallId item
        let name := ((item.get "name").bind Json.asStr).getD ""
        let args := ((item.get "arguments").bind Json.asStr).getD "\x7b\x7d"
        let input := (parseJson args).getD (Json.obj [])
        if call_id ≠ "" ∧ name ≠ "" then
          let st := { st with fallback_tool_calls :=
            st.fallback_tool_calls ++ [ToolCall.mk call_id name input] }
          let ins := setInsert st.ended_call_ids call_id
          if ins.1 then
            { st with ended_call_ids := ins.2,
                      events := st.events ++
                        [StreamEvent.toolUseEnd call_id name input] }
          else { st with ended_call_ids := ins.2 }
        else st
      else st
    else st
  | none => st

/-- The `response.completed` arm of `run_completion`. -/
def codexCompletedArm (st : CodexStreamState) (json : Json) : CodexStreamState :=
  match json.get "response" with
  | some response =>
    { st with fallback_usage := usage_from_response response,
              completed_response := some response }
  | none => st

/-- Dispatch of one SSE event in `run_completion`. -/
def codexProcessEvent (st : CodexStreamState) (event_name : String)
    (json : Json) : CodexStreamState :=
  if event_name = "response.output_text.delta" then codexTextDeltaArm st json
  else if event_name = "response.output_item.added" then codexItemAddedArm st json
  else if event_name = "response.function_call_arguments.delta" then
    codexArgsDeltaArm st json
  else if event_name = "response.function_call_arguments.done" then
    codexArgsDoneArm st json
  else if event_name = "response.output_item.done" then codexItemDoneArm st json
  else if event_name = "response.completed" then codexCompletedArm st json
  else st

/-- The `"message"` arm of the output walk in
`build_completion_from_response`: accumulate `output_text`/`refusal`
text. -/
def codexMessageText (item : Json) : String :=
  match (item.get "content").bind Json.asArray with
  | some parts =>
    parts.foldl
      (fun (text : String) (part : Json) =>
        let part_type := ((part.get "type").bind Json.asStr).getD ""
        let text :=
          if (part_type = "output_text" ∨ part_type = "refusal") ∧
              ((part.get "text").bind Json.asStr).isSome then
            text ++ (((part.get "text").bind Json.asStr).getD "")
          else text
        if part_type = "refusal" then
          text ++ (((part.get "refusal").bind Json.asStr).getD "")
        else text)
      ""
  | none => ""

/-- The response-walking phase of `build_completion_from_response`:
accumulated text, content, tool calls, usage and the pre-override stop
reason. -/
def buildCompletionCore (response : Option Json) (fallback_usage : TokenUsage) :
    String × List ContentBlock × List ToolCall × TokenUsage × StopReason :=
  match response with
    | none => ("", ([] : List ContentBlock), ([] : List ToolCall),
               fallback_usage, StopReason.endTurn)
    | some resp =>
      let usage := usage_from_response resp
      let stop_reason :=
        match (resp.get "status").bind Json.asStr with
        | some s =>
          if asciiLower s = "incomplete" then StopReason.maxTokens
          else StopReason.endTurn
        | none => StopReason.endTurn
      match (resp.get "output").bind Json.asArray with
      | none => ("", [], [], usage, stop_reason)
      | some output_items =>
        output_items.foldl
          (fun (acc : String × List ContentBlock × List ToolCall ×
                TokenUsage × StopReason) (item : Json) =>
            let (text, content, tool_calls, usage, stop_reason) := acc
            let item_type := ((item.get "type").bind Json.asStr).getD ""
            if item_type = "message" then
              (text ++ codexMessageText item, content, tool_calls, usage, stop_reason)
            else if item_type = "function_call" then
              let call_id := codexItemCallId item
              let name := ((item.get "name").bind Json.asStr).getD ""
              if call_id = "" ∨ name = "" then acc
              else
                let arguments := ((item.get "arguments").bind Json.asStr).getD "\x7b\x7d"
                let input := (parseJson arguments).getD (Json.obj [])
                (text, content ++ [ContentBlock.toolUse call_id name input],
                 tool_calls ++ [ToolCall.mk call_id name input], usage, stop_reason)
            else acc)
          ("", [], [], usage, stop_reason)

/-- `CodexDriver::build_completion_from_response`. -/
def build_completion_from_response (response : Option Json)
    (fallback_text : String) (fallback_tool_calls : List ToolCall)
    (fallback_usage : TokenUsage) : CompletionResponse :=
  let st := buildCompletionCore response fallback_usage
  let (text₀, content₀, tool_calls₀, usage, stop_reason₀) := st
  let text := if text₀ = "" then fallback_text else text₀
  let content := if text ≠ "" then ContentBlock.text text :: content₀ else content₀
  let (content, tool_calls) :=
    if tool_calls₀.isEmpty ∧ !fallback_tool_calls.isEmpty then
      (content ++ fallback_tool_calls.map
        (fun (call : ToolCall) => ContentBlock.toolUse call.id call.name call.input),
       fallback_tool_calls)
    else (content, tool_calls₀)
  let stop_reason :=
    if !tool_calls.isEmpty then StopReason.toolUse else stop_reason₀
  { content := content, stop_reason := stop_reason,
    tool_calls := tool_calls, usage := usage }

/-- End-of-stream assembly of `run_completion`: the authoritative
response, the second-tier reconstruction from accumulated tool metadata,
then the single terminal `ContentComplete`. -/
def codexFinish (st : CodexStreamState) : List StreamEvent × CompletionResponse :=
  let response := build_completion_from_response st.completed_response
    st.text_accum st.fallback_tool_calls st.fallback_usage
  let response :=
    if response.tool_calls.isEmpty ∧ !st.tool_meta.isEmpty then
      -- `for (item_id, (call_id, name)) in tool_meta` — the model iterates
      -- in insertion order (`HashMap` order is unspecified).
      let add := st.tool_meta.foldl
        (fun (acc : List ToolCall × List ContentBlock) entry =>
          let item_id := entry.1
          let call_id := entry.2.1
          let name := entry.2.2
          let args := (assocGet st.tool_args item_id).getD "\x7b\x7d"
          let input := (parseJson args).getD (Json.obj [])
          (acc.1 ++ [ToolCall.mk call_id name input],
           acc.2 ++ [ContentBlock.toolUse call_id name input]))
        ([], [])
      { response with
        tool_calls := response.tool_calls ++ add.1,
        content := response.content ++ add.2,
        stop_reason := StopReason.toolUse }
    else response
  (st.events ++ [StreamEvent.contentComplete response.stop_reason response.usage],
   response)

/-- The SSE phase of `CodexDriver::run_completion` over the dispatched
`(event name, data)` pairs: emitted events and the returned response.
`complete` and `stream` both call this (`complete` with no sink). -/
def codexRunCompletion (eventsIn : List (String × Json)) :
    List StreamEvent × CompletionResponse :=
  codexFinish (eventsIn.foldl (fun st ev => codexProcessEvent st ev.1 ev.2) codexInitState)



/-! ## OAuth credential manager (`codex_oauth.rs`)

Timestamps (`chrono::DateTime<Utc>`) are modelled as epoch seconds
(`Int`); `Utc::now()` is passed explicitly as `now`. -/

/-- `StoredCodexAuth`. -/
structure StoredCodexAuth where
  openai_api_key : Option String
  chatgpt_account_id : Option String
  access_token : String
  refresh_token : Option String
  id_token : Option String
  token_type : String
  scope : String
  client_id : Option String
  issued_at : Int
  expires_at : Option Int
  source : String
deriving Inhabited

/-- `TokenResponse` (missing `token_type`/`scope` default to `""`). -/
structure TokenResponse where
  access_token : String
  refresh_token : Option String
  id_token : Option String
  token_type : String
  scope : String
  expires_in : Option Int
deriving Inhabited

/-- `hydrate_scope_from_tokens`: when the stored scope is blank, derive it
from the access token's (or id token's) scope claim. -/
def hydrate_scope_from_tokens (auth : StoredCodexAuth) : StoredCodexAuth :=
  if strTrim auth.scope ≠ "" then auth
  else
    match (jwt_scope_from_token auth.access_token).orElse
        (fun _ => auth.id_token.bind jwt_scope_from_token) with
    | some scope => { auth with scope := scope }
    | none => auth

/-- `update_auth_from_token`: the refresh merge, mirroring the source's
sequential field updates. -/
def update_auth_from_token (auth : StoredCodexAuth) (token : TokenResponse)
    (source : String) (now : Int) : StoredCodexAuth :=
  let auth := { auth with access_token := token.access_token }
  let auth := { auth with chatgpt_account_id :=
    (jwt_chatgpt_account_id auth.access_token).or auth.chatgpt_account_id }
  let auth := { auth with refresh_token := token.refresh_token.or auth.refresh_token }
  let auth := { auth with id_token := token.id_token.or auth.id_token }
  let auth := { auth with token_type :=
    if token.token_type = "" then auth.token_type else token.token_type }
  let auth := if token.scope ≠ "" then { auth with scope := token.scope } else auth
  let auth := hydrate_scope_from_tokens auth
  let auth := { auth with issued_at := now }
  let auth := { auth with expires_at := token.expires_in.map (fun secs => now + secs) }
  let auth := { auth with source := source }
  match auth.id_token with
  | some id_token =>
    { auth with client_id := (jwt_client_id_from_id_token id_token).or auth.client_id }
  | none => auth

/-! ### Pending PKCE store

`PENDING_PKCE: DashMap<String, PendingPkce>` is modelled as an association
list with unique keys; `DashMap::insert`/`remove`/`retain` map to the
operations below. -/

/-- `PendingPkce`. -/
structure PendingPkce where
  verifier : String
  redirect_uri : String
  client_id : String
  created_at : Int
deriving Inhabited

/-- The pending-login store. -/
abbrev PkceStore := List (String × PendingPkce)

/-- `MAX_PENDING_AGE_SECS = 15 * 60`. -/
def MAX_PENDING_AGE_SECS : Int := 15 * 60

/-- `DashMap::insert` (replace or append). -/
def pkceInsert (store : PkceStore) (key : String) (v : PendingPkce) : PkceStore :=
  match store with
  | [] => [(key, v)]
  | kv :: rest => if kv.1 = key then (key, v) :: rest else kv :: pkceInsert rest key v

/-- `DashMap::remove`: the removed entry, if any, and the updated store. -/
def pkceRemove (store : PkceStore) (key : String) :
    Option PendingPkce × PkceStore :=
  match store with
  | [] => (none, [])
  | kv :: rest =>
    if kv.1 = key then (some kv.2, rest)
    else
      let r := pkceRemove rest key
      (r.1, kv :: r.2)

/-- `cleanup_stale_pkce`: retain entries at most `MAX_PENDING_AGE_SECS`
old. -/
def cleanup_stale_pkce (now : Int) (store : PkceStore) : PkceStore :=
  store.filter (fun kv => now - kv.2.created_at ≤ MAX_PENDING_AGE_SECS)

/-- The pending-store effect of `codex_oauth_start`: sweep stale entries,
then register the fresh `{verifier, redirect_uri, client_id, created_at}`
under the freshly generated state token.  (Listener management, challenge
derivation and the returned authorization URL do not touch the store.) -/
def codex_oauth_start_pending (store : PkceStore) (now : Int)
    (verifier redirect_uri client_id state_token : String) : PkceStore :=
  pkceInsert (cleanup_stale_pkce now store) state_token
    { verifier := verifier, redirect_uri := redirect_uri,
      client_id := client_id, created_at := now }

/-- `CodexCallbackQuery`. -/
structure CodexCallbackQuery where
  code : Option String
  state : Option String
  error : Option String
  error_description : Option String
deriving Inhabited

/-- Outcome of the guard-and-consume phase of `codex_oauth_callback`
(everything before the token exchange, which is external I/O). -/
inductive CallbackOutcome where
  | providerError (message : String)
  | missingCode
  | missingState
  | invalidState
  | proceed (code : String) (pending : PendingPkce)
deriving Inhabited

/-- `codex_oauth_callback` up to the single-use state consumption: reject
a provider error, a missing/blank code or state; then remove the pending
entry by state, failing as invalid/expired when absent. -/
def codex_oauth_callback_consume (store : PkceStore) (q : CodexCallbackQuery) :
    CallbackOutcome × PkceStore :=
  match q.error with
  | some err =>
    (CallbackOutcome.providerError
      (err ++ ": " ++ (q.error_description.getD "OAuth error")), store)
  | none =>
    let code? :=
      match q.code with
      | some c => if strTrim c ≠ "" then some c else none
      | none => none
    match code? with
    | none => (CallbackOutcome.missingCode, store)
    | some code =>
      let state? :=
        match q.state with
        | some s => if strTrim s ≠ "" then some s else none
        | none => none
      match state? with
      | none => (CallbackOutcome.missingState, store)
      | some state_token =>
        match pkceRemove store state_token with
        | (some pending, store') => (CallbackOutcome.proceed code pending, store')
        | (none, _) => (CallbackOutcome.invalidState, store)

/-- `PasteCodeRequest`. -/
structure PasteCodeRequest where
  code : String
  state : Option String
deriving Inhabited

/-- `codex_oauth_paste_code` up to the pending-entry consumption: sweep
stale entries; with an explicit state, remove exactly that entry (absent →
"Unknown or expired state"); without one, remove the most recently created
pending entry (the fold keeps the earlier entry on `created_at` ties,
matching the `>=` guard). -/
def codex_oauth_paste_consume (store : PkceStore) (now : Int)
    (body : PasteCodeRequest) : Except String PendingPkce × PkceStore :=
  let store := cleanup_stale_pkce now store
  match body.state with
  | some st =>
    match pkceRemove store st with
    | (some p, store') => (Except.ok p, store')
    | (none, store') => (Except.error "Unknown or expired state", store')
  | none =>
    let latest := store.foldl
      (fun (acc : Option (String × PendingPkce)) kv =>
        match acc with
        | some cur => if cur.2.created_at ≥ kv.2.created_at then acc else some kv
        | none => some kv)
      none
    match latest with
    | some kp =>
      let r := pkceRemove store kp.1
      (Except.ok kp.2, r.2)
    | none => (Except.error "No pending PKCE login found", store)



/-! ## Verification-support definitions

Measurement functions and predicates used by the theorems; they observe
the embedding's outputs and do not model source code. -/

/-- Whether an event is the terminal `ContentComplete`. -/
def StreamEvent.isContentComplete : StreamEvent → Bool
  | .contentComplete _ _ => true
  | _ => false

/-- Whether an event is `ToolUseStart` with the given id. -/
def StreamEvent.isStartOf (id : String) : StreamEvent → Bool
  | .toolUseStart i _ => i = id
  | _ => false

/-- Whether an event is `ToolUseEnd` with the given id. -/
def StreamEvent.isEndOf (id : String) : StreamEvent → Bool
  | .toolUseEnd i _ _ => i = id
  | _ => false

/-- Number of `ToolUseStart` events carrying `id`. -/
def countStarts (evs : List StreamEvent) (id : String) : Nat :=
  (evs.filter (StreamEvent.isStartOf id)).length

/-- Number of `ToolUseEnd` events carrying `id`. -/
def countEnds (evs : List StreamEvent) (id : String) : Nat :=
  (evs.filter (StreamEvent.isEndOf id)).length

/-- Total number of `ToolUseStart` events. -/
def startTotal (evs : List StreamEvent) : Nat :=
  (evs.filter (fun e => match e with | .toolUseStart _ _ => true | _ => false)).length

/-- The tool-call ids observed in an event sequence (on `ToolUseStart` or
`ToolUseEnd` events). -/
def eventToolIds (evs : List StreamEvent) : List String :=
  evs.filterMap (fun e =>
    match e with
    | .toolUseStart i _ => some i
    | .toolUseEnd i _ _ => some i
    | _ => none)

/-- Every `ToolUseEnd` is preceded, strictly earlier in the sequence, by
a `ToolUseStart` with the same id. -/
def EndsPreceded (evs : List StreamEvent) : Prop :=
  ∀ i id nm inp, evs.get? i = some (StreamEvent.toolUseEnd id nm inp) →
    ∃ j nm2, j < i ∧ evs.get? j = some (StreamEvent.toolUseStart id nm2)

/-- One step of the distinct-added-item-id accumulation (mirrors the
`started_item_ids` gating of the `output_item.added` arm). -/
def codexAddedStep (acc : List String) (ev : String × Json) : List String :=
  if ev.1 = "response.output_item.added" then
    match ev.2.get "item" with
    | some item =>
      if item.isObject then
        if ((item.get "type").bind Json.asStr).getD "" = "function_call" then
          let item_id := ((item.get "id").bind Json.asStr).getD ""
          if item_id ≠ "" then (setInsert acc item_id).2 else acc
        else acc
      else acc
    | none => acc
  else acc

/-- The distinct non-empty `function_call` item ids announced by
`response.output_item.added` events, in first-seen order (this is what
`started_item_ids` accumulates). -/
def codexAddedItemIds (evs : List (String × Json)) : List String :=
  evs.foldl codexAddedStep []

/-- `type` field of a built request item. -/
def jsonItemType (it : Json) : Option String :=
  (it.get "type").bind Json.asStr

/-- Every `function_call_output` item is preceded, earlier in the item
list, by a `function_call` item with the same `call_id`. -/
def OutputsMatched (items : List Json) : Prop :=
  ∀ i it, items.get? i = some it →
    jsonItemType it = some "function_call_output" →
    ∃ j jt, j < i ∧ items.get? j = some jt ∧
      jsonItemType jt = some "function_call" ∧
      jt.get "call_id" = it.get "call_id"

/-- Whether a list of JSON values is exactly the given strings. -/
def strListMatches : List Json → List String → Bool
  | [], [] => true
  | .str s :: xs, k :: ks => s = k && strListMatches xs ks
  | _, _ => false

mutual

/-- Strictness checker for C9: every object-typed node reachable through
`properties`, `items` (object or array form), `anyOf`, `oneOf` and
`allOf` has `additionalProperties = false` and `required` equal to its
declared property keys. -/
def schemaStrictOK : Json → Bool
  | .obj fields =>
    let is_object :=
      (match (Json.obj fields).get "type" with
        | some t => t.asStr = some "object"
        | none => false)
      || fields.any (fun kv => kv.1 = "properties")
    let node_ok :=
      if is_object then
        (match (Json.obj fields).get "additionalProperties" with
          | some (.bool false) => true
          | _ => false)
        &&
        (let keys :=
          match (Json.obj fields).get "properties" with
          | some (.obj props) => Json.fieldKeys props
          | _ => []
        match (Json.obj fields).get "required" with
        | some (.arr xs) => strListMatches xs keys
        | _ => false)
      else true
    node_ok && schemaFieldsStrictOK fields
  | _ => true

/-- Child traversal of `schemaStrictOK` (same edges as the enforcement). -/
def schemaFieldsStrictOK : List (String × Json) → Bool
  | [] => true
  | (k, v) :: rest =>
    (if k = "properties" then
      match v with
      | .obj props => schemaValuesStrictOK props
      | _ => true
    else if k = "items" then
      match v with
      | .obj fs => schemaStrictOK (Json.obj fs)
      | .arr xs => schemaListStrictOK xs
      | _ => true
    else if k = "anyOf" ∨ k = "oneOf" ∨ k = "allOf" then
      match v with
      | .arr xs => schemaListStrictOK xs
      | _ => true
    else true)
    && schemaFieldsStrictOK rest

/-- Checker over each value of a `properties` map. -/
def schemaValuesStrictOK : List (String × Json) → Bool
  | [] => true
  | (_, v) :: rest => schemaStrictOK v && schemaValuesStrictOK rest

/-- Checker over each element of a schema array. -/
def schemaListStrictOK : List Json → Bool
  | [] => true
  | x :: xs => schemaStrictOK x && schemaListStrictOK xs

end

/-- Per-entry check of `schemaFieldsStrictOK`, factored out so its cons
equation can be rewritten without unfolding the mutual block. -/
def schemaEntryOK (k : String) (v : Json) : Bool :=
  if k = "properties" then
    match v with
    | .obj props => schemaValuesStrictOK props
    | _ => true
  else if k = "items" then
    match v with
    | .obj fs => schemaStrictOK (Json.obj fs)
    | .arr xs => schemaListStrictOK xs
    | _ => true
  else if k = "anyOf" ∨ k = "oneOf" ∨ k = "allOf" then
    match v with
    | .arr xs => schemaListStrictOK xs
    | _ => true
  else true

/-- The per-node part of `schemaStrictOK` on an object. -/
def schemaNodeOK (fields : List (String × Json)) : Bool :=
  if schemaIsObject fields then
    (match (Json.obj fields).get "additionalProperties" with
      | some (.bool false) => true
      | _ => false)
    && (match (Json.obj fields).get "required" with
        | some (.arr xs) => strListMatches xs (schemaPropKeys fields)
        | _ => false)
  else true

/-- A concrete tool definition used to instantiate the C9 theorem. -/
def sampleToolDef : ToolDefinition :=
  { name := "f", description := "d",
    input_schema := Json.obj
      [("type", Json.str "object"),
       ("properties", Json.obj [("q", Json.obj [("type", Json.str "string")])])] }



/-- Concrete Gemini SSE `data:` payload used by the C3 counterexample: a
single `functionCall` part together with `finishReason` `"STOP"`. -/
def geminiStopToolChunk : String :=
  "\x7b\"candidates\":[\x7b\"content\":\x7b\"parts\":[\x7b\"functionCall\":" ++
  "\x7b\"name\":\"f\",\"args\":\x7b\"q\":1\x7d\x7d\x7d]\x7d," ++
  "\"finishReason\":\"STOP\"\x7d]\x7d"



/-- Concrete `response.output_item.added` event (function-call item). -/
def codexAddedEvent (item_id call_id : String) : String × Json :=
  ("response.output_item.added",
   Json.obj [("item", Json.obj
     [("type", Json.str "function_call"), ("id", Json.str item_id),
      ("call_id", Json.str call_id), ("name", Json.str "f")])])

/-- Concrete `response.output_item.done` event (function-call item). -/
def codexDoneEvent (call_id : String) : String × Json :=
  ("response.output_item.done",
   Json.obj [("item", Json.obj
     [("type", Json.str "function_call"), ("call_id", Json.str call_id),
      ("name", Json.str "f"), ("arguments", Json.str "null")])])

/-- An id appearing in `seen` is backed by a `function_call` item already
in the built list (C4 invariant companion). -/
def SeenMatched (items : List Json) (seen : List String) : Prop :=
  ∀ id ∈ seen, ∃ it ∈ items, jsonItemType it = some "function_call" ∧
    it.get "call_id" = some (Json.str id)



/-- Whether a Gemini part is a `functionResponse` wire part. -/
def GeminiPart.isFunctionResponse : GeminiPart → Bool
  | .functionResponse _ => true
  | _ => false

/-- Whether a content block is a `ToolResult`. -/
def ContentBlock.isToolResult : ContentBlock → Bool
  | .toolResult _ _ _ => true
  | _ => false

/-- Number of `functionResponse` parts. -/
def countFnResponses (parts : List GeminiPart) : Nat :=
  (parts.filter GeminiPart.isFunctionResponse).length

/-- Number of `ToolResult` blocks. -/
def countToolResults (blocks : List ContentBlock) : Nat :=
  (blocks.filter ContentBlock.isToolResult).length


/-- Number of drivers the loop invokes, read off the outcome list. -/
def invokedSpec : List DriverOutcome → Nat
  | [] => 0
  | d :: rest => if d.stops then 1 else 1 + invokedSpec rest


/-- Event-trace invariant of the Gemini SSE loop, relative to the uuid
supply `gen` and the starting counter `ctr0`: the counter only grows;
every tool id observed in the events was minted from a counter in
`[ctr0, ctr)`; each minted id carries exactly one `ToolUseStart` and one
`ToolUseEnd`; no `ContentComplete` has been emitted; every `ToolUseEnd`
is preceded by its `ToolUseStart`. -/
def GeminiEvInv (gen : Nat → String) (ctr0 : Nat) (st : GeminiStreamState) : Prop :=
  ctr0 ≤ st.ctr ∧
  (∀ id, id ∈ eventToolIds st.events →
    ∃ k, ctr0 ≤ k ∧ k < st.ctr ∧ id = mkCallId gen k) ∧
  (∀ k, ctr0 ≤ k → k < st.ctr →
    countStarts st.events (mkCallId gen k) = 1 ∧
    countEnds st.events (mkCallId gen k) = 1) ∧
  (∀ e ∈ st.events, e.isContentComplete = false) ∧
  EndsPreceded st.events

/-- An injective uuid supply used to instantiate the id-freshness
theorems. -/
def replGen (n : Nat) : String :=
  String.mk (List.replicate n 'x')


/-- Event-trace invariant of the Codex SSE loop: no `ContentComplete`
emitted yet; at most one `ToolUseEnd` per call id (`ended_call_ids`-gated,
none for ids outside the set); one `ToolUseStart` per entry of
`started_item_ids`. -/
def CodexEvInv (st : CodexStreamState) : Prop :=
  (∀ e ∈ st.events, e.isContentComplete = false) ∧
  (∀ id, countEnds st.events id ≤ (if id ∈ st.ended_call_ids then 1 else 0)) ∧
  startTotal st.events = st.started_item_ids.length


/-- The tool-use ids carried by `ToolUse` content blocks. -/
def blockToolIds (blocks : List ContentBlock) : List String :=
  blocks.filterMap (fun b =>
    match b with
    | .toolUse id _ _ => some id
    | _ => none)


-- THEOREMS START

theorem fallbackRunGo_fst (ds : List DriverOutcome) :
    ∀ (e : LlmError) (n : Nat),
      (fallbackRunGo ds (some e) n).1 =
        if ds.isEmpty then Except.error e else chainOfResponsibilitySpec ds := by
  induction ds with
  | nil => intro e n; simp [fallbackRunGo]
  | cons d rest ih =>
    intro e n
    cases d with
    | ok r => simp [fallbackRunGo, chainOfResponsibilitySpec]
    | error err =>
      cases err <;>
        simp [fallbackRunGo, chainOfResponsibilitySpec, LlmError.isBubbled, ih]

theorem fallbackRunGo_snd (ds : List DriverOutcome) :
    ∀ (last : Option LlmError) (n : Nat),
      (fallbackRunGo ds last n).2 = n + invokedSpec ds := by
  induction ds with
  | nil => intro last n; simp [fallbackRunGo, invokedSpec]
  | cons d rest ih =>
    intro last n
    cases d with
    | ok r => simp [fallbackRunGo, invokedSpec, DriverOutcome.stops]
    | error err =>
      cases err <;>
        simp [fallbackRunGo, invokedSpec, DriverOutcome.stops,
          LlmError.isBubbled, ih] <;> omega

theorem invokedSpec_of_firstStop_some (ds : List DriverOutcome) :
    ∀ k, firstStopIndex ds = some k → invokedSpec ds = k + 1 := by
  induction ds with
  | nil => intro k hk; simp [firstStopIndex] at hk
  | cons d rest ih =>
    intro k hk
    by_cases h : d.stops = true
    · simp [firstStopIndex, h] at hk
      simp [invokedSpec, h, ← hk]
    · simp [firstStopIndex, h] at hk
      rcases hk with ⟨k', hk', rfl⟩
      simp [invokedSpec, h, ih k' hk']
      omega

theorem invokedSpec_of_firstStop_none (ds : List DriverOutcome) :
    firstStopIndex ds = none → invokedSpec ds = ds.length := by
  induction ds with
  | nil => intro _; simp [invokedSpec]
  | cons d rest ih =>
    intro hk
    by_cases h : d.stops = true
    · simp [firstStopIndex, h] at hk
    · simp [firstStopIndex, h] at hk
      simp [invokedSpec, h, ih hk]
      omega

/-- C1: `FallbackDriver::complete` (and the identically-implemented
`stream`) equals the chain-of-responsibility reference: the result is
exactly `chainOfResponsibilitySpec` (first success wins; `RateLimited` /
`Overloaded` are returned immediately; otherwise the last error survives;
the empty chain is the synthetic `Api` with status 0), and the number of
drivers invoked is the position of the first stopping driver plus one, so
no driver after a success or a bubbled error is ever invoked. -/
theorem fallback_matches_chain_of_responsibility (drivers : List DriverOutcome) :
    (fallbackRun drivers).1 = chainOfResponsibilitySpec drivers ∧
    (∀ k, firstStopIndex drivers = some k → (fallbackRun drivers).2 = k + 1) ∧
    (firstStopIndex drivers = none → (fallbackRun drivers).2 = drivers.length) := by
  have hcount : (fallbackRun drivers).2 = invokedSpec drivers := by
    simpa [fallbackRun] using fallbackRunGo_snd drivers none 0
  refine ⟨?_, ?_, ?_⟩
  · cases drivers with
    | nil => simp [fallbackRun, fallbackRunGo, chainOfResponsibilitySpec]
    | cons d rest =>
      cases d with
      | ok r => simp [fallbackRun, fallbackRunGo, chainOfResponsibilitySpec]
      | error err =>
        cases err <;>
          simp [fallbackRun, fallbackRunGo, chainOfResponsibilitySpec,
            LlmError.isBubbled, fallbackRunGo_fst]
  · intro k hk
    rw [hcount]
    exact invokedSpec_of_firstStop_some drivers k hk
  · intro hk
    rw [hcount]
    exact invokedSpec_of_firstStop_none drivers hk


/-- Witness for C1 at a concrete two-driver chain (first fails with `Api`,
second succeeds): the composer matches the reference and invokes both
drivers (`firstStopIndex = some 1`). -/
theorem fallback_matches_chain_of_responsibility_witness :
    (fallbackRun [Except.error (LlmError.api 500 "Internal error"),
        Except.ok { content := [ContentBlock.text "OK"],
                    stop_reason := StopReason.endTurn, tool_calls := [],
                    usage := { input_tokens := 10, output_tokens := 5 } }]).1 =
      chainOfResponsibilitySpec [Except.error (LlmError.api 500 "Internal error"),
        Except.ok { content := [ContentBlock.text "OK"],
                    stop_reason := StopReason.endTurn, tool_calls := [],
                    usage := { input_tokens := 10, output_tokens := 5 } }] ∧
    (fallbackRun [Except.error (LlmError.api 500 "Internal error"),
        Except.ok { content := [ContentBlock.text "OK"],
                    stop_reason := StopReason.endTurn, tool_calls := [],
                    usage := { input_tokens := 10, output_tokens := 5 } }]).2 = 2 :=
  ⟨(fallback_matches_chain_of_responsibility _).1,
   (fallback_matches_chain_of_responsibility _).2.1 1 (by rfl)⟩

/-! ### C6 — refresh merge (`update_auth_from_token`) -/

/-- C6 counterexample: a refresh response with an empty `scope` can still
change the stored scope.  With a blank stored scope and a response whose
access token is a JWT carrying a `scope` claim, the merge hydrates the
scope from that claim ("foo") even though the response did not supply
one — so "replaces scope only if present (non-empty) in the response" is
false as stated. -/
theorem update_auth_scope_hydration_counterexample :
    (update_auth_from_token
      { openai_api_key := none, chatgpt_account_id := none,
        access_token := "old", refresh_token := some "r", id_token := none,
        token_type := "Bearer", scope := "", client_id := none,
        issued_at := 0, expires_at := none, source := "pkce_callback" }
      { access_token := "h.eyJzY29wZSI6ImZvbyJ9", refresh_token := none,
        id_token := none, token_type := "", scope := "", expires_in := none }
      "refresh_token" 100).scope = "foo" := by rfl

/-- `hydrate_scope_from_tokens` leaves a record with a non-blank scope
unchanged. -/
theorem hydrate_scope_noop (a : StoredCodexAuth) (h : strTrim a.scope ≠ "") :
    hydrate_scope_from_tokens a = a := by
  unfold hydrate_scope_from_tokens
  simp [h]

/-- `hydrate_scope_from_tokens` on a blank scope takes the JWT claim when
one exists. -/
theorem hydrate_scope_blank (a : StoredCodexAuth) (h : strTrim a.scope = "") :
    hydrate_scope_from_tokens a =
      (match (jwt_scope_from_token a.access_token).orElse
          (fun _ => a.id_token.bind jwt_scope_from_token) with
        | some s => { a with scope := s }
        | none => a) := by
  unfold hydrate_scope_from_tokens
  simp only [h, ne_eq, not_true_eq_false, if_false]

/-- C6 (amended): the refresh merge law field by field.  Access token
always replaces; refresh/id token replace only when supplied; token type
replaces only when non-empty; `issued_at` resets to `now`; `expires_at`
is recomputed from `expires_in` when given and cleared otherwise; scope
replaces when the response's scope is non-empty, and additionally a blank
merged scope is hydrated from the `scope`/`scp` JWT claim of the new
access token (or of the merged id token) when such a claim is present. -/
theorem update_auth_from_token_merge_law (auth : StoredCodexAuth)
    (token : TokenResponse) (source : String) (now : Int) :
    (update_auth_from_token auth token source now).access_token = token.access_token ∧
    (update_auth_from_token auth token source now).refresh_token =
      token.refresh_token.or auth.refresh_token ∧
    (update_auth_from_token auth token source now).id_token =
      token.id_token.or auth.id_token ∧
    (update_auth_from_token auth token source now).token_type =
      (if token.token_type = "" then auth.token_type else token.token_type) ∧
    (update_auth_from_token auth token source now).issued_at = now ∧
    (update_auth_from_token auth token source now).expires_at =
      token.expires_in.map (fun secs => now + secs) ∧
    (update_auth_from_token auth token source now).source = source ∧
    (update_auth_from_token auth token source now).scope =
      (let merged := if token.scope ≠ "" then token.scope else auth.scope
       if strTrim merged ≠ "" then merged
       else
         match (jwt_scope_from_token token.access_token).orElse
             (fun _ => (token.id_token.or auth.id_token).bind jwt_scope_from_token) with
         | some s => s
         | none => merged) := by
  by_cases hsc : token.scope = "" <;>
    [simp only [update_auth_from_token, hsc, ne_eq, not_true_eq_false, if_false, ite_false];
     simp only [update_auth_from_token, hsc, ne_eq, not_false_eq_true, if_true, ite_true]] <;>
  by_cases hms : strTrim (if token.scope ≠ "" then token.scope else auth.scope) = "" <;>
    simp only [hsc, ne_eq, not_true_eq_false, not_false_eq_true, if_true, if_false,
      ite_true, ite_false] at hms ⊢ <;>
    first
      | (rw [hydrate_scope_noop _ (by simpa using hms)]
         cases hid : token.id_token.or auth.id_token <;> simp_all)
      | (rw [hydrate_scope_blank _ (by simpa using hms)]
         cases hclaim : (jwt_scope_from_token token.access_token).orElse
             (fun _ => (token.id_token.or auth.id_token).bind jwt_scope_from_token) <;>
           cases hid : token.id_token.or auth.id_token <;> simp_all)

/-! ### C7 — pending PKCE entries are consumed at most once -/

theorem pkceInsert_of_absent (m : PkceStore) (k : String) (v : PendingPkce)
    (h : ∀ kv ∈ m, kv.1 ≠ k) : pkceInsert m k v = m ++ [(k, v)] := by
  induction m with
  | nil => simp [pkceInsert]
  | cons kv rest ih =>
    have hk : kv.1 ≠ k := h kv (by simp)
    simp [pkceInsert, hk, ih (fun kv hkv => h kv (by simp [hkv]))]

theorem assocGet_none_of_absent (m : List (String × α)) (k : String)
    (h : ∀ kv ∈ m, kv.1 ≠ k) : assocGet m k = none := by
  induction m with
  | nil => simp [assocGet]
  | cons kv rest ih =>
    have hk : kv.1 ≠ k := h kv (by simp)
    simp [assocGet, hk, ih (fun kv hkv => h kv (by simp [hkv]))]

theorem assocGet_append_single (m : List (String × α)) (k : String) (v : α)
    (h : ∀ kv ∈ m, kv.1 ≠ k) : assocGet (m ++ [(k, v)]) k = some v := by
  induction m with
  | nil => simp [assocGet]
  | cons kv rest ih =>
    have hk : kv.1 ≠ k := h kv (by simp)
    simp [assocGet, hk, ih (fun kv hkv => h kv (by simp [hkv]))]

theorem pkceRemove_absent (m : PkceStore) (k : String)
    (h : ∀ kv ∈ m, kv.1 ≠ k) : pkceRemove m k = (none, m) := by
  induction m with
  | nil => simp [pkceRemove]
  | cons kv rest ih =>
    have hk : kv.1 ≠ k := h kv (by simp)
    simp [pkceRemove, hk, ih (fun kv hkv => h kv (by simp [hkv]))]

theorem pkceRemove_append_single (m : PkceStore) (k : String) (v : PendingPkce)
    (h : ∀ kv ∈ m, kv.1 ≠ k) : pkceRemove (m ++ [(k, v)]) k = (some v, m) := by
  induction m with
  | nil => simp [pkceRemove]
  | cons kv rest ih =>
    have hk : kv.1 ≠ k := h kv (by simp)
    simp [pkceRemove, hk, ih (fun kv hkv => h kv (by simp [hkv]))]

theorem cleanup_preserves_absent (m : PkceStore) (now : Int) (k : String)
    (h : ∀ kv ∈ m, kv.1 ≠ k) :
    ∀ kv ∈ cleanup_stale_pkce now m, kv.1 ≠ k := by
  intro kv hkv
  exact h kv (List.mem_of_mem_filter hkv)

theorem cleanup_of_live (m : PkceStore) (now : Int)
    (h : ∀ kv ∈ m, now - kv.2.created_at ≤ MAX_PENDING_AGE_SECS) :
    cleanup_stale_pkce now m = m := by
  unfold cleanup_stale_pkce
  exact List.filter_eq_self.mpr (fun kv hkv => by simpa using h kv hkv)

/-- `codex_oauth_callback_consume` with a well-formed query reduces to the
single-use removal. -/
theorem callback_consume_good (store : PkceStore) (code state_token : String)
    (hcode : strTrim code ≠ "") (hstate : strTrim state_token ≠ "") :
    codex_oauth_callback_consume store
        { code := some code, state := some state_token, error := none,
          error_description := none } =
      (match pkceRemove store state_token with
        | (some pending, store') => (CallbackOutcome.proceed code pending, store')
        | (none, _) => (CallbackOutcome.invalidState, store)) := by
  unfold codex_oauth_callback_consume
  dsimp only
  rw [if_pos hcode, if_pos hstate]

/-- `codex_oauth_paste_consume` with an explicit state reduces to sweep
plus removal. -/
theorem paste_consume_with_state (store : PkceStore) (now : Int)
    (code state_token : String) :
    codex_oauth_paste_consume store now { code := code, state := some state_token } =
      (match pkceRemove (cleanup_stale_pkce now store) state_token with
        | (some p, store') => (Except.ok p, store')
        | (none, store') => (Except.error "Unknown or expired state", store')) := by
  unfold codex_oauth_paste_consume
  dsimp only

/-- C7: a pending PKCE entry is consumed at most once.  Starting a login
under a fresh state token makes the entry retrievable; the first callback
with that exact state consumes it (the handler proceeds with exactly the
stored verifier/redirect/client); a second callback finds no entry, fails
as invalid state and leaves the store unchanged; a second submission via
the paste handler likewise fails as "Unknown or expired state", and (when
no entry is stale) also leaves the store unchanged. -/
theorem pkce_state_single_use (store : PkceStore) (now now₂ : Int)
    (verifier redirect_uri client_id state_token code : String)
    (hfresh : ∀ kv ∈ store, kv.1 ≠ state_token)
    (hstate : strTrim state_token ≠ "") (hcode : strTrim code ≠ "") :
    assocGet (codex_oauth_start_pending store now verifier redirect_uri client_id state_token)
        state_token =
      some { verifier := verifier, redirect_uri := redirect_uri,
             client_id := client_id, created_at := now } ∧
    (codex_oauth_callback_consume
        (codex_oauth_start_pending store now verifier redirect_uri client_id state_token)
        { code := some code, state := some state_token, error := none,
          error_description := none }).1 =
      CallbackOutcome.proceed code
        { verifier := verifier, redirect_uri := redirect_uri,
          client_id := client_id, created_at := now } ∧
    (codex_oauth_callback_consume
        (codex_oauth_start_pending store now verifier redirect_uri client_id state_token)
        { code := some code, state := some state_token, error := none,
          error_description := none }).2 = cleanup_stale_pkce now store ∧
    assocGet (cleanup_stale_pkce now store) state_token = none ∧
    (codex_oauth_callback_consume (cleanup_stale_pkce now store)
        { code := some code, state := some state_token, error := none,
          error_description := none }) =
      (CallbackOutcome.invalidState, cleanup_stale_pkce now store) ∧
    (codex_oauth_paste_consume (cleanup_stale_pkce now store) now₂
        { code := code, state := some state_token }).1 =
      Except.error "Unknown or expired state" ∧
    ((∀ kv ∈ cleanup_stale_pkce now store,
        now₂ - kv.2.created_at ≤ MAX_PENDING_AGE_SECS) →
      (codex_oauth_paste_consume (cleanup_stale_pkce now store) now₂
          { code := code, state := some state_token }).2 =
        cleanup_stale_pkce now store) := by
  have habs : ∀ kv ∈ cleanup_stale_pkce now store, kv.1 ≠ state_token :=
    cleanup_preserves_absent store now state_token hfresh
  have hins : codex_oauth_start_pending store now verifier redirect_uri client_id state_token
      = cleanup_stale_pkce now store ++
        [(state_token, { verifier := verifier, redirect_uri := redirect_uri,
                         client_id := client_id, created_at := now })] := by
    unfold codex_oauth_start_pending
    exact pkceInsert_of_absent _ _ _ habs
  refine ⟨?_, ?_, ?_, ?_, ?_, ?_, ?_⟩
  · rw [hins]
    exact assocGet_append_single _ _ _ habs
  · rw [callback_consume_good _ _ _ hcode hstate, hins,
      pkceRemove_append_single _ _ _ habs]
  · rw [callback_consume_good _ _ _ hcode hstate, hins,
      pkceRemove_append_single _ _ _ habs]
  · exact assocGet_none_of_absent _ _ habs
  · rw [callback_consume_good _ _ _ hcode hstate, pkceRemove_absent _ _ habs]
  · have habs₂ : ∀ kv ∈ cleanup_stale_pkce now₂ (cleanup_stale_pkce now store),
        kv.1 ≠ state_token :=
      cleanup_preserves_absent _ now₂ state_token habs
    rw [paste_consume_with_state, pkceRemove_absent _ _ habs₂]
  · intro hlive
    rw [paste_consume_with_state, cleanup_of_live _ _ hlive,
      pkceRemove_absent _ _ habs]

/-- Witness for C7 at a concrete empty store and fresh state token. -/
theorem pkce_state_single_use_witness :
    assocGet (codex_oauth_start_pending [] 0 "v" "http://localhost:1455/auth/callback"
        "client" "state1") "state1" =
      some { verifier := "v", redirect_uri := "http://localhost:1455/auth/callback",
             client_id := "client", created_at := 0 } ∧
    (codex_oauth_callback_consume
        (codex_oauth_start_pending [] 0 "v" "http://localhost:1455/auth/callback"
          "client" "state1")
        { code := some "authcode", state := some "state1", error := none,
          error_description := none }).1 =
      CallbackOutcome.proceed "authcode"
        { verifier := "v", redirect_uri := "http://localhost:1455/auth/callback",
          client_id := "client", created_at := 0 } := by
  have h := pkce_state_single_use [] 0 0 "v" "http://localhost:1455/auth/callback"
    "client" "state1" "authcode" (by simp) (by decide) (by decide)
  exact ⟨h.1, h.2.1⟩

/-! ### C8 — JWT claim extraction -/

/-- C8: JWT `aud` extraction is total (all functions involved are total
Lean functions — no input can panic) and correct: (i) on a token of two
or more dot-separated parts, the payload is the second segment decoded
with the unpadded URL-safe engine first and the padded one second, parsed
as JSON; (ii) a string `aud` that is non-empty after trimming is returned
trimmed; (iii) an array `aud` yields its first non-empty (after trimming)
string element, trimmed; (iv) a token with fewer than two dot-separated
parts yields nothing; (v) any token whose payload fails to decode or
parse yields nothing. -/
theorem jwt_claim_extraction_correct :
    (∀ (tok p0 p1 : String) (rest : List String),
      strSplit '.' tok = p0 :: p1 :: rest →
      parse_jwt_payload tok =
        ((b64UrlDecodeNoPad p1).orElse (fun _ => b64UrlDecodePadded p1)).bind
          parseJsonBytes) ∧
    (∀ (tok : String) (payload : Json) (s : String),
      parse_jwt_payload tok = some payload →
      payload.get "aud" = some (Json.str s) →
      strTrim s ≠ "" →
      jwt_client_id_from_id_token tok = some (strTrim s)) ∧
    (∀ (tok : String) (payload : Json) (elems : List Json),
      parse_jwt_payload tok = some payload →
      payload.get "aud" = some (Json.arr elems) →
      jwt_client_id_from_id_token tok = audFirstNonEmpty elems) ∧
    (∀ tok : String, (strSplit '.' tok).length < 2 →
      jwt_client_id_from_id_token tok = none) ∧
    (∀ tok : String, parse_jwt_payload tok = none →
      jwt_client_id_from_id_token tok = none) := by
  have hsplit_none : ∀ tok : String, (strSplit '.' tok).length < 2 →
      parse_jwt_payload tok = none := by
    intro tok hlen
    unfold parse_jwt_payload
    cases h : strSplit '.' tok with
    | nil => rfl
    | cons a t =>
      cases t with
      | nil => rfl
      | cons b t' => rw [h] at hlen; simp at hlen; omega
  refine ⟨?_, ?_, ?_, ?_, ?_⟩
  · intro tok p0 p1 rest hsplit
    unfold parse_jwt_payload
    rw [hsplit]
  · intro tok payload s hparse haud htrim
    unfold jwt_client_id_from_id_token
    rw [hparse]
    simp [haud, Json.asStr, htrim]
  · intro tok payload elems hparse haud
    unfold jwt_client_id_from_id_token
    rw [hparse]
    simp [haud, Json.asStr, Json.asArray]

  · intro tok hlen
    unfold jwt_client_id_from_id_token
    rw [hsplit_none tok hlen]
    rfl
  · intro tok hparse
    unfold jwt_client_id_from_id_token
    rw [hparse]
    rfl

/-- Witness for C8 at concrete tokens: a two-part token whose payload is
`{"aud":"abc"}` (unpadded base64url) yields `"abc"`; an array `aud`
`["", "abc"]` yields `"abc"`; a dotless token yields nothing. -/
theorem jwt_claim_extraction_correct_witness :
    jwt_client_id_from_id_token "h.eyJhdWQiOiJhYmMifQ" = some "abc" ∧
    jwt_client_id_from_id_token "h.eyJhdWQiOlsiIiwiYWJjIl19" = some "abc" ∧
    jwt_client_id_from_id_token "nodots" = none := by
  refine ⟨?_, ?_, ?_⟩
  · exact jwt_claim_extraction_correct.2.1 "h.eyJhdWQiOiJhYmMifQ"
      (Json.obj [("aud", Json.str "abc")]) "abc" (by rfl) (by rfl) (by decide)
  · exact jwt_claim_extraction_correct.2.2.1 "h.eyJhdWQiOlsiIiwiYWJjIl19"
      (Json.obj [("aud", Json.arr [Json.str "", Json.str "abc"])])
      [Json.str "", Json.str "abc"] (by rfl) (by rfl)
  · exact jwt_claim_extraction_correct.2.2.2.1 "nodots" (by decide)

/-! ### C5 — Gemini retry policy -/

theorem geminiCompleteLoop_requests_le (gen : Nat → String)
    (replies : Nat → WireReply) (l : List Nat) :
    (geminiCompleteLoop gen replies l).requests ≤ l.length := by
  induction l with
  | nil => simp [geminiCompleteLoop]
  | cons attempt rest ih =>
    unfold geminiCompleteLoop
    dsimp only
    split
    · split
      · simpa using Nat.add_le_add_right ih 1
      · split <;> simp
    · split
      · simp
      · split <;> simp

theorem geminiStreamLoop_requests_le (gen : Nat → String)
    (replies : Nat → StreamWireReply) (l : List Nat) :
    (geminiStreamLoop gen replies l).trace.requests ≤ l.length := by
  induction l with
  | nil => simp [geminiStreamLoop]
  | cons attempt rest ih =>
    unfold geminiStreamLoop
    dsimp only
    split
    · split
      · simpa using Nat.add_le_add_right ih 1
      · split <;> simp
    · split
      · simp
      · simp

/-- C5: the Gemini adapter's retry policy, for `complete` and `stream`
alike.  At most 4 HTTP requests are ever issued (a hard cap of 3
retries); when every attempt returns 429/503 the backoffs are the linear
2000/4000/6000 ms and the exhausted result is `RateLimited{5000}` for a
final 429 and `Overloaded{5000}` for a final 503; the first reply that is
neither 429 nor 503 ends the loop at that attempt with no further
backoff, and when it is a non-2xx status the result is `Api` carrying the
structured `error.message` parsed from the body (or the raw body when
parsing fails), which is what `geminiErrorMessage` computes. -/
theorem gemini_retry_policy (gen : Nat → String) (replies : Nat → WireReply)
    (sreplies : Nat → StreamWireReply) :
    ((geminiComplete gen replies).requests ≤ 4 ∧
     (geminiStream gen sreplies).trace.requests ≤ 4) ∧
    ((∀ k, k ≤ 3 → (replies k).status = 429 ∨ (replies k).status = 503) →
      (geminiComplete gen replies).requests = 4 ∧
      (geminiComplete gen replies).sleeps = [2000, 4000, 6000] ∧
      (geminiComplete gen replies).result =
        (if (replies 3).status = 429 then Except.error (LlmError.rateLimited 5000)
         else Except.error (LlmError.overloaded 5000))) ∧
    ((∀ k, k ≤ 3 → (sreplies k).status = 429 ∨ (sreplies k).status = 503) →
      (geminiStream gen sreplies).trace.requests = 4 ∧
      (geminiStream gen sreplies).trace.sleeps = [2000, 4000, 6000] ∧
      (geminiStream gen sreplies).trace.result =
        (if (sreplies 3).status = 429 then Except.error (LlmError.rateLimited 5000)
         else Except.error (LlmError.overloaded 5000))) ∧
    (∀ k, k ≤ 3 →
      (∀ j, j < k → (replies j).status = 429 ∨ (replies j).status = 503) →
      ¬((replies k).status = 429 ∨ (replies k).status = 503) →
      (geminiComplete gen replies).requests = k + 1 ∧
      (geminiComplete gen replies).sleeps =
        (List.range k).map (fun j => (j + 1) * 2000) ∧
      (httpIsSuccess (replies k).status = false →
        (geminiComplete gen replies).result =
          Except.error (LlmError.api (replies k).status
            (geminiErrorMessage (replies k).body)))) ∧
    (∀ k, k ≤ 3 →
      (∀ j, j < k → (sreplies j).status = 429 ∨ (sreplies j).status = 503) →
      ¬((sreplies k).status = 429 ∨ (sreplies k).status = 503) →
      (geminiStream gen sreplies).trace.requests = k + 1 ∧
      (geminiStream gen sreplies).trace.sleeps =
        (List.range k).map (fun j => (j + 1) * 2000) ∧
      (httpIsSuccess (sreplies k).status = false →
        (geminiStream gen sreplies).trace.result =
          Except.error (LlmError.api (sreplies k).status
            (geminiErrorMessage (sreplies k).body)))) := by
  refine ⟨⟨?_, ?_⟩, ?_, ?_, ?_, ?_⟩
  · simpa using geminiCompleteLoop_requests_le gen replies geminiAttemptNumbers
  · simpa using geminiStreamLoop_requests_le gen sreplies geminiAttemptNumbers
  · intro hall
    have h0 := hall 0 (by omega)
    have h1 := hall 1 (by omega)
    have h2 := hall 2 (by omega)
    have h3 := hall 3 (by omega)
    unfold geminiComplete geminiAttemptNumbers geminiCompleteLoop
    by_cases hl : (replies 3).status = 429 <;>
      simp_all [geminiCompleteLoop]
  · intro hall
    have h0 := hall 0 (by omega)
    have h1 := hall 1 (by omega)
    have h2 := hall 2 (by omega)
    have h3 := hall 3 (by omega)
    unfold geminiStream geminiAttemptNumbers geminiStreamLoop
    by_cases hl : (sreplies 3).status = 429 <;>
      simp_all [geminiStreamLoop]
  · intro k hk hpre hstop
    interval_cases k
    · by_cases hs : httpIsSuccess (replies 0).status = false <;>
        cases hp : parseGeminiResponse (replies 0).body <;>
          simp [geminiComplete, geminiAttemptNumbers, geminiCompleteLoop, hstop, hs, hp]
    · have h0 := hpre 0 (by omega)
      by_cases hs : httpIsSuccess (replies 1).status = false <;>
        cases hp : parseGeminiResponse (replies 1).body <;>
          simp [geminiComplete, geminiAttemptNumbers, geminiCompleteLoop, hstop, h0, hs, hp] <;> decide
    · have h0 := hpre 0 (by omega)
      have h1 := hpre 1 (by omega)
      by_cases hs : httpIsSuccess (replies 2).status = false <;>
        cases hp : parseGeminiResponse (replies 2).body <;>
          simp [geminiComplete, geminiAttemptNumbers, geminiCompleteLoop, hstop, h0, h1, hs, hp] <;> decide
    · have h0 := hpre 0 (by omega)
      have h1 := hpre 1 (by omega)
      have h2 := hpre 2 (by omega)
      by_cases hs : httpIsSuccess (replies 3).status = false <;>
        cases hp : parseGeminiResponse (replies 3).body <;>
          simp [geminiComplete, geminiAttemptNumbers, geminiCompleteLoop, hstop, h0, h1, h2, hs, hp] <;> decide
  · intro k hk hpre hstop
    interval_cases k
    · by_cases hs : httpIsSuccess (sreplies 0).status = false <;>
        simp [geminiStream, geminiAttemptNumbers, geminiStreamLoop, hstop, hs]
    · have h0 := hpre 0 (by omega)
      by_cases hs : httpIsSuccess (sreplies 1).status = false <;>
        simp [geminiStream, geminiAttemptNumbers, geminiStreamLoop, hstop, h0, hs] <;> decide
    · have h0 := hpre 0 (by omega)
      have h1 := hpre 1 (by omega)
      by_cases hs : httpIsSuccess (sreplies 2).status = false <;>
        simp [geminiStream, geminiAttemptNumbers, geminiStreamLoop, hstop, h0, h1, hs] <;> decide
    · have h0 := hpre 0 (by omega)
      have h1 := hpre 1 (by omega)
      have h2 := hpre 2 (by omega)
      by_cases hs : httpIsSuccess (sreplies 3).status = false <;>
        simp [geminiStream, geminiAttemptNumbers, geminiStreamLoop, hstop, h0, h1, h2, hs] <;> decide

/-- Witness for C5 at concrete wire behaviors: all-429 exhausts into
`RateLimited{5000}` after sleeps 2000/4000/6000; a 500 with body "boom"
is surfaced as `Api{500,"boom"}` with no retry; all-503 streaming
exhausts into `Overloaded{5000}`. -/
theorem gemini_retry_policy_witness :
    (geminiComplete (fun _ => "u") (fun _ => { status := 429, body := "" })).sleeps =
      [2000, 4000, 6000] ∧
    (geminiComplete (fun _ => "u") (fun _ => { status := 429, body := "" })).result =
      Except.error (LlmError.rateLimited 5000) ∧
    (geminiComplete (fun _ => "u") (fun _ => { status := 500, body := "boom" })).requests = 1 ∧
    (geminiComplete (fun _ => "u") (fun _ => { status := 500, body := "boom" })).result =
      Except.error (LlmError.api 500 "boom") ∧
    (geminiStream (fun _ => "u")
        (fun _ => { status := 503, body := "", chunks := [] })).trace.result =
      Except.error (LlmError.overloaded 5000) := by
  have h1 := (gemini_retry_policy (fun _ => "u") (fun _ => ⟨429, ""⟩)
    (fun _ => ⟨503, "", []⟩)).2.1 (fun k _ => Or.inl rfl)
  have h2 := (gemini_retry_policy (fun _ => "u") (fun _ => ⟨500, "boom"⟩)
    (fun _ => ⟨503, "", []⟩)).2.2.2.1 0 (by omega)
    (fun j hj => absurd hj (by omega)) (by decide)
  have h3 := (gemini_retry_policy (fun _ => "u") (fun _ => ⟨429, ""⟩)
    (fun _ => ⟨503, "", []⟩)).2.2.1 (fun k _ => Or.inr rfl)
  refine ⟨h1.2.1, by simpa using h1.2.2, h2.1, ?_, by simpa using h3.2.2⟩
  rw [h2.2.2 (by decide)]
  rfl

/-! ### C3 — stop reason vs. extracted tool calls -/

theorem build_completion_stop_toolUse (response : Option Json)
    (fallback_text : String) (fallback_tool_calls : List ToolCall)
    (fallback_usage : TokenUsage) :
    (build_completion_from_response response fallback_text fallback_tool_calls
        fallback_usage).tool_calls ≠ [] →
    (build_completion_from_response response fallback_text fallback_tool_calls
        fallback_usage).stop_reason = StopReason.toolUse := by
  unfold build_completion_from_response
  rcases hcore : buildCompletionCore response fallback_usage with ⟨t, c, tc, u, sr⟩
  dsimp only
  split
  · intro h
    cases hfc : fallback_tool_calls with
    | nil => simp_all
    | cons a l => simp [hfc]
  · intro h
    cases htc : tc with
    | nil => simp_all
    | cons a l => simp [htc]

/-- `codexRunCompletion` satisfies the override: non-empty tool calls
force `ToolUse`. -/
theorem codexRunCompletion_stop_toolUse (evs : List (String × Json)) :
    (codexRunCompletion evs).2.tool_calls ≠ [] →
    (codexRunCompletion evs).2.stop_reason = StopReason.toolUse := by
  unfold codexRunCompletion codexFinish
  dsimp only
  split
  · intro _; rfl
  · exact build_completion_stop_toolUse _ _ _ _

/-- `convert_response` (the Gemini non-streaming reconstruction)
satisfies the override. -/
theorem convert_response_stop_toolUse (gen : Nat → String) (ctr : Nat)
    (resp : GeminiResponse) (out : CompletionResponse) :
    convert_response gen ctr resp = Except.ok out →
    out.tool_calls ≠ [] →
    out.stop_reason = StopReason.toolUse := by
  unfold convert_response
  cases hc : resp.candidates with
  | nil => intro h; cases h
  | cons candidate rest =>
    rcases hst : geminiCandidateParts gen ctr candidate.content with ⟨c, tc, ctr'⟩
    dsimp only
    rw [hst]
    intro hok
    injection hok with h2
    subst h2
    intro h
    cases htc : tc with
    | nil => simp_all
    | cons a l => simp [htc]

/-- In `GeminiDriver::stream`'s finalization the backend finish reason
takes precedence over the presence of tool calls: `"STOP"` and
`"SAFETY"` map to `EndTurn` and `"MAX_TOKENS"` to `MaxTokens`
unconditionally; only an absent or unrecognized finish reason lets
non-empty tool calls force `ToolUse`. -/
theorem geminiFinalize_stop_char (gen : Nat → String) (st : GeminiStreamState) :
    (st.finish_reason = some "STOP" →
      (geminiFinalize gen st).2.1.stop_reason = StopReason.endTurn) ∧
    (st.finish_reason = some "MAX_TOKENS" →
      (geminiFinalize gen st).2.1.stop_reason = StopReason.maxTokens) ∧
    (st.finish_reason = some "SAFETY" →
      (geminiFinalize gen st).2.1.stop_reason = StopReason.endTurn) ∧
    (∀ fr, st.finish_reason = some fr → fr ≠ "STOP" → fr ≠ "MAX_TOKENS" →
      fr ≠ "SAFETY" → (geminiFinalize gen st).2.1.tool_calls ≠ [] →
      (geminiFinalize gen st).2.1.stop_reason = StopReason.toolUse) ∧
    (st.finish_reason = none → (geminiFinalize gen st).2.1.tool_calls ≠ [] →
      (geminiFinalize gen st).2.1.stop_reason = StopReason.toolUse) := by
  unfold geminiFinalize
  rcases hfin : geminiFinalCalls gen
    (if st.text_content ≠ "" then [ContentBlock.text st.text_content] else [])
    st.ctr st.fn_calls with ⟨c, tc, ctr'⟩
  dsimp only
  rw [hfin]
  refine ⟨?_, ?_, ?_, ?_, ?_⟩
  · intro hfr; rw [hfr]; simp
  · intro hfr; rw [hfr]; simp
  · intro hfr; rw [hfr]; simp
  · intro fr hfr h1 h2 h3 htc
    rw [hfr]
    cases hl : tc with
    | nil => simp_all
    | cons a l => simp [h1, h2, h3, hl]
  · intro hfr htc
    rw [hfr]
    cases hl : tc with
    | nil => simp_all
    | cons a l => simp [hl]

/-- C3 (amended): `stop_reason = ToolUse` whenever `tool_calls` is
non-empty holds for the Codex adapter (streaming and non-streaming share
`run_completion`) and for the Gemini non-streaming path
(`convert_response`); in the Gemini *streaming* path the backend finish
reason takes precedence — a last-seen `"STOP"`/`"SAFETY"` yields
`EndTurn` and `"MAX_TOKENS"` yields `MaxTokens` even when tool calls are
present, and `ToolUse` is reported only when the finish reason is absent
or unrecognized and tool calls are non-empty. -/
theorem stop_reason_toolUse_override (evs : List (String × Json))
    (gen : Nat → String) (ctr : Nat) (resp : GeminiResponse)
    (out : CompletionResponse) (chunks : List String) :
    ((codexRunCompletion evs).2.tool_calls ≠ [] →
      (codexRunCompletion evs).2.stop_reason = StopReason.toolUse) ∧
    (convert_response gen ctr resp = Except.ok out → out.tool_calls ≠ [] →
      out.stop_reason = StopReason.toolUse) ∧
    ((chunks.foldl (geminiProcessChunk gen) (geminiInitState ctr)).finish_reason =
        some "STOP" →
      (geminiStreamRun gen ctr chunks).2.1.stop_reason = StopReason.endTurn) ∧
    ((chunks.foldl (geminiProcessChunk gen) (geminiInitState ctr)).finish_reason =
        none →
      (geminiStreamRun gen ctr chunks).2.1.tool_calls ≠ [] →
      (geminiStreamRun gen ctr chunks).2.1.stop_reason = StopReason.toolUse) ∧
    (∀ fr, (chunks.foldl (geminiProcessChunk gen) (geminiInitState ctr)).finish_reason =
        some fr → fr ≠ "STOP" → fr ≠ "MAX_TOKENS" → fr ≠ "SAFETY" →
      (geminiStreamRun gen ctr chunks).2.1.tool_calls ≠ [] →
      (geminiStreamRun gen ctr chunks).2.1.stop_reason = StopReason.toolUse) :=
  ⟨codexRunCompletion_stop_toolUse evs,
   convert_response_stop_toolUse gen ctr resp out,
   (geminiFinalize_stop_char gen _).1,
   (geminiFinalize_stop_char gen _).2.2.2.2,
   fun fr h h1 h2 h3 =>
     (geminiFinalize_stop_char gen _).2.2.2.1 fr h h1 h2 h3⟩

/-- C3 counterexample: a Gemini streaming call whose single chunk carries
a `functionCall` part and `finishReason: "STOP"` returns a response with
one extracted tool call but `stop_reason = EndTurn` — refuting the claim
that a non-empty `tool_calls` always forces `ToolUse`. -/
theorem gemini_stream_stop_reason_counterexample :
    (geminiStream (fun _ => "u")
        (fun _ => { status := 200, body := "", chunks := [geminiStopToolChunk] })).trace.result =
      Except.ok
        { content := [ContentBlock.toolUse "call_u" "f" (Json.obj [("q", Json.num 1)])],
          stop_reason := StopReason.endTurn,
          tool_calls := [ToolCall.mk "call_u" "f" (Json.obj [("q", Json.num 1)])],
          usage := {} } ∧
    [ToolCall.mk "call_u" "f" (Json.obj [("q", Json.num 1)])] ≠ [] := by
  exact ⟨by rfl, by simp⟩

/-! ### C4 — orphaned tool results -/

theorem foldl_preserve {α σ : Type _} (P : σ → Prop) (step : σ → α → σ)
    (l : List α) (s : σ) (h0 : P s) (hstep : ∀ s x, P s → P (step s x)) :
    P (l.foldl step s) := by
  induction l generalizing s with
  | nil => exact h0
  | cons x xs ih => exact ih (step s x) (hstep s x h0)

theorem get?_singleton_eq {α : Type _} (x it : α) (n : Nat)
    (h : [x].get? n = some it) : it = x := by
  cases n with
  | zero => simpa using h.symm
  | succ m => simp at h

theorem outputsMatched_nil : OutputsMatched [] := by
  intro i it hit
  simp at hit

theorem outputsMatched_append (items : List Json) (x : Json)
    (hx : jsonItemType x ≠ some "function_call_output")
    (h : OutputsMatched items) : OutputsMatched (items ++ [x]) := by
  intro i it hit hty
  by_cases hi : i < items.length
  · rw [List.get?_append hi] at hit
    obtain ⟨j, jt, hj, hjt, hjty, hjc⟩ := h i it hit hty
    exact ⟨j, jt, hj, by rw [List.get?_append (lt_trans hj hi)]; exact hjt, hjty, hjc⟩
  · rw [List.get?_append_right (le_of_not_lt hi)] at hit
    have hix : it = x := get?_singleton_eq x it (i - items.length) hit
    exact absurd (hix ▸ hty) hx

theorem outputsMatched_append_output (items : List Json) (x : Json)
    (hwit : ∃ n jt, items.get? n = some jt ∧
      jsonItemType jt = some "function_call" ∧
      jt.get "call_id" = x.get "call_id")
    (h : OutputsMatched items) : OutputsMatched (items ++ [x]) := by
  intro i it hit hty
  by_cases hi : i < items.length
  · rw [List.get?_append hi] at hit
    obtain ⟨j, jt, hj, hjt, hjty, hjc⟩ := h i it hit hty
    exact ⟨j, jt, hj, by rw [List.get?_append (lt_trans hj hi)]; exact hjt, hjty, hjc⟩
  · rw [List.get?_append_right (le_of_not_lt hi)] at hit
    have hx : it = x := get?_singleton_eq x it (i - items.length) hit
    obtain ⟨n, jt, hn, hnty, hnc⟩ := hwit
    have hnlen : n < items.length := by
      by_contra hge
      rw [List.get?_eq_none.mpr (le_of_not_lt hge)] at hn
      cases hn
    refine ⟨n, jt, by omega, ?_, hnty, by rw [hx]; exact hnc⟩
    rw [List.get?_append hnlen]
    exact hn

theorem seenMatched_append (items : List Json) (seen : List String) (x : Json)
    (h : SeenMatched items seen) : SeenMatched (items ++ [x]) seen := by
  intro id hid
  obtain ⟨it, hmem, hty, hc⟩ := h id hid
  exact ⟨it, by simp [hmem], hty, hc⟩

theorem seenMatched_extend (items : List Json) (seen : List String) (x : Json)
    (id : String) (h : SeenMatched items seen)
    (hty : jsonItemType x = some "function_call")
    (hc : x.get "call_id" = some (Json.str id)) :
    SeenMatched (items ++ [x]) (seen ++ [id]) := by
  intro id' hid'
  rcases List.mem_append.mp hid' with hm | hm
  · exact seenMatched_append items seen x h id' hm
  · have : id' = id := by simpa using hm
    subst this
    exact ⟨x, by simp, hty, hc⟩

theorem seenMatched_witness (items : List Json) (seen : List String)
    (id : String) (h : SeenMatched items seen) (hid : id ∈ seen) :
    ∃ n jt, items.get? n = some jt ∧ jsonItemType jt = some "function_call" ∧
      jt.get "call_id" = some (Json.str id) := by
  obtain ⟨it, hmem, hty, hc⟩ := h id hid
  obtain ⟨n, hn⟩ := List.get?_of_mem hmem
  exact ⟨n, it, hn, hty, hc⟩

theorem jsonItemType_first (t : String) (rest : List (String × Json)) :
    jsonItemType (Json.obj (("type", Json.str t) :: rest)) = some t := by
  simp [jsonItemType, Json.get, Json.asStr]

theorem push_user_message_preserves (items : List Json) (seen : List String)
    (texts : List String) (images : List Json)
    (h : OutputsMatched items) (hs : SeenMatched items seen) :
    OutputsMatched (push_user_message items texts images) ∧
    SeenMatched (push_user_message items texts images) seen := by
  unfold push_user_message
  dsimp only
  split
  · exact ⟨h, hs⟩
  · exact ⟨outputsMatched_append _ _ (by simp [jsonItemType_first]) h,
      seenMatched_append _ _ _ hs⟩

theorem codexUserBlocks_preserves (items : List Json) (seen : List String)
    (blocks : List ContentBlock)
    (h : OutputsMatched items) (hs : SeenMatched items seen) :
    OutputsMatched (codexUserBlocks items seen blocks) ∧
    SeenMatched (codexUserBlocks items seen blocks) seen := by
  unfold codexUserBlocks
  have hfold := foldl_preserve
    (fun (acc : List Json × List String × List Json) =>
      OutputsMatched acc.1 ∧ SeenMatched acc.1 seen)
    (codexUserBlockStep seen) blocks (items, [], []) ⟨h, hs⟩ ?_
  · exact push_user_message_preserves _ _ _ _ hfold.1 hfold.2
  · rintro ⟨accItems, accTexts, accImages⟩ block ⟨ho, hsm⟩
    unfold codexUserBlockStep
    dsimp only
    cases block with
    | text t =>
      by_cases ht : t ≠ "" <;> simp [ht] <;> exact ⟨ho, hsm⟩
    | image mt d => exact ⟨ho, hsm⟩
    | toolResult tool_use_id content is_err =>
      by_cases hin : tool_use_id ∈ seen
      · simp only [hin, if_true, ite_true]
        refine ⟨?_, seenMatched_append _ _ _ hsm⟩
        refine outputsMatched_append_output _ _ ?_ ho
        obtain ⟨n, jt, hn, hty, hc⟩ := seenMatched_witness _ _ _ hsm hin
        refine ⟨n, jt, hn, hty, ?_⟩
        rw [hc]
        simp [Json.get]
      · simp only [hin, if_false, ite_false]
        exact ⟨ho, hsm⟩
    | thinking t => exact ⟨ho, hsm⟩
    | toolUse a b c => exact ⟨ho, hsm⟩
    | unknown => exact ⟨ho, hsm⟩

theorem codexAssistantBlocks_preserves (items : List Json) (seen : List String)
    (blocks : List ContentBlock)
    (h : OutputsMatched items) (hs : SeenMatched items seen) :
    OutputsMatched (codexAssistantBlocks items seen blocks).1 ∧
    SeenMatched (codexAssistantBlocks items seen blocks).1
      (codexAssistantBlocks items seen blocks).2 := by
  unfold codexAssistantBlocks
  have hfold := foldl_preserve
    (fun (acc : List Json × List String × List String) =>
      OutputsMatched acc.1 ∧ SeenMatched acc.1 acc.2.1)
    codexAssistantBlockStep blocks (items, seen, []) ⟨h, hs⟩ ?_
  · dsimp only
    split
    · exact ⟨outputsMatched_append _ _ (by simp [jsonItemType_first]) hfold.1,
        seenMatched_append _ _ _ hfold.2⟩
    · exact hfold
  · rintro ⟨accItems, accSeen, accTexts⟩ block ⟨ho, hsm⟩
    unfold codexAssistantBlockStep
    dsimp only
    cases block with
    | text t =>
      by_cases ht : t ≠ "" <;> simp [ht] <;> exact ⟨ho, hsm⟩
    | toolUse id name input =>
      refine ⟨outputsMatched_append _ _ (by simp [jsonItemType_first]) ho, ?_⟩
      refine seenMatched_extend _ _ _ id hsm (by simp [jsonItemType_first]) ?_
      simp [Json.get]
    | image mt d => exact ⟨ho, hsm⟩
    | toolResult a b c => exact ⟨ho, hsm⟩
    | thinking t => exact ⟨ho, hsm⟩
    | unknown => exact ⟨ho, hsm⟩

theorem geminiPartsOfBlocks_counts (blocks : List ContentBlock) :
    ∀ acc, countFnResponses (blocks.foldl geminiBlockPartStep acc) =
      countFnResponses acc + countToolResults blocks := by
  induction blocks with
  | nil => intro acc; simp [countToolResults]
  | cons block rest ih =>
    intro acc
    rw [List.foldl_cons, ih]
    cases block <;>
      (simp [geminiBlockPartStep, countFnResponses, countToolResults,
        List.filter_append, GeminiPart.isFunctionResponse,
        ContentBlock.isToolResult, List.filter]
       try omega)

/-- C4 (amended): the Codex adapter drops orphaned tool results — in
every built request, each `function_call_output` item is preceded by a
`function_call` item with the same call id (so a `ToolResult` whose id
never appeared on an earlier assistant `ToolUse` produces no wire item);
the Gemini adapter performs no such check — `convert_messages` turns
every `ToolResult` block into a `functionResponse` wire part (one per
`ToolResult`), matched or not. -/
theorem orphaned_tool_results (request : CompletionRequest)
    (blocks : List ContentBlock) :
    OutputsMatched (build_input_items request) ∧
    countFnResponses (geminiPartsOfBlocks blocks) = countToolResults blocks := by
  constructor
  · unfold build_input_items
    have hfold := foldl_preserve
      (fun (acc : List Json × List String) =>
        OutputsMatched acc.1 ∧ SeenMatched acc.1 acc.2)
      buildInputStep request.messages ([], [])
      ⟨outputsMatched_nil, by intro id hid; simp at hid⟩ ?_
    · dsimp only
      split
      · intro i it hit hty
        have : it = Json.obj
            [("type", Json.str "message"), ("role", Json.str "user"),
             ("content", Json.arr [Json.obj
               [("type", Json.str "input_text"), ("text", Json.str "Continue.")]])] :=
          get?_singleton_eq _ it i hit
        rw [this] at hty
        simp [jsonItemType_first] at hty
      · exact hfold.1
    · rintro ⟨accItems, accSeen⟩ msg ⟨ho, hsm⟩
      rcases msg with ⟨role, content⟩
      unfold buildInputStep
      dsimp only
      cases role with
      | system => exact ⟨ho, hsm⟩
      | user =>
        cases content with
        | text t =>
          by_cases ht : strTrim t = "" <;> simp only [ht, if_true, if_false, ite_true, ite_false]
          · exact ⟨ho, hsm⟩
          · exact ⟨outputsMatched_append _ _ (by simp [jsonItemType_first]) ho,
              seenMatched_append _ _ _ hsm⟩
        | blocks bs => exact codexUserBlocks_preserves _ _ bs ho hsm
      | assistant =>
        cases content with
        | text t =>
          by_cases ht : strTrim t = "" <;> simp only [ht, if_true, if_false, ite_true, ite_false]
          · exact ⟨ho, hsm⟩
          · exact ⟨outputsMatched_append _ _ (by simp [jsonItemType_first]) ho,
              seenMatched_append _ _ _ hsm⟩
        | blocks bs => exact codexAssistantBlocks_preserves _ _ bs ho hsm
  · unfold geminiPartsOfBlocks
    simpa [countFnResponses] using geminiPartsOfBlocks_counts blocks []

/-- C4 counterexample: a conversation whose only content is a
`ToolResult` with no matching earlier `ToolUse` — the Gemini translation
still sends a `functionResponse` wire part upstream, refuting "no wire
item for that orphaned result appears in the request body" for the
Gemini adapter. -/
theorem gemini_orphaned_tool_result_counterexample :
    (convert_messages
        [{ role := Role.user,
           content := MessageContent.blocks
             [ContentBlock.toolResult "orphan-id" "out" false] }] none).1 =
      [{ role := some "user",
         parts := [GeminiPart.functionResponse
           { name := "", response := Json.obj [("result", Json.str "out")] }] }] := by
  rfl

/-- Witness for C3 at a concrete Codex stream: a single
`output_item.done` function-call event yields a response whose stop
reason is `ToolUse`. -/
theorem stop_reason_toolUse_override_witness :
    (codexRunCompletion [codexDoneEvent "c"]).2.stop_reason = StopReason.toolUse :=
  (stop_reason_toolUse_override [codexDoneEvent "c"] (fun _ => "u") 0 default default []).1
    (by
      rw [show (codexRunCompletion [codexDoneEvent "c"]).2.tool_calls =
        [ToolCall.mk "c" "f" Json.null] from rfl]
      simp)

/-- Witness for C4 at a concrete conversation: an assistant `ToolUse`
with id "a" followed by a user `ToolResult` for "a" and an orphaned
`ToolResult` "b"; the built items satisfy the precedence property, and
the orphaned output is indeed absent (only one `function_call_output`). -/
theorem orphaned_tool_results_witness :
    OutputsMatched (build_input_items
      { model := "m",
        messages :=
          [{ role := Role.assistant,
             content := MessageContent.blocks
               [ContentBlock.toolUse "a" "f" Json.null] },
           { role := Role.user,
             content := MessageContent.blocks
               [ContentBlock.toolResult "a" "ok" false,
                ContentBlock.toolResult "b" "orphan" false] }],
        tools := [], max_tokens := 1, system := none }) ∧
    countFnResponses (geminiPartsOfBlocks
      [ContentBlock.toolResult "b" "orphan" false]) = 1 :=
  ⟨(orphaned_tool_results _ []).1,
   (orphaned_tool_results
     { model := "m", messages := [], tools := [], max_tokens := 1, system := none }
     [ContentBlock.toolResult "b" "orphan" false]).2⟩

/-! ### C9 — strict tool schemas -/

theorem strListMatches_map (ks : List String) :
    strListMatches (ks.map Json.str) ks = true := by
  induction ks with
  | nil => rfl
  | cons k rest ih => simp [strListMatches, ih]

theorem get_obj_cons (kv : String × Json) (rest : List (String × Json))
    (k : String) :
    (Json.obj (kv :: rest)).get k =
      if kv.1 = k then some kv.2 else (Json.obj rest).get k := by
  simp only [Json.get, List.find?]
  by_cases h : kv.1 = k <;> simp [h]

theorem get_insertField_self (fs : List (String × Json)) (k : String) (v : Json) :
    (Json.obj (Json.insertField fs k v)).get k = some v := by
  induction fs with
  | nil => simp [Json.insertField, Json.get, List.find?]
  | cons kv rest ih =>
    by_cases h : kv.1 = k
    · simp [Json.insertField, h, get_obj_cons]
    · simp only [Json.insertField, h, if_false, ite_false]
      rw [get_obj_cons, if_neg h]
      exact ih

theorem get_insertField_other (fs : List (String × Json)) (k : String) (v : Json)
    (key : String) (h : key ≠ k) :
    (Json.obj (Json.insertField fs k v)).get key = (Json.obj fs).get key := by
  induction fs with
  | nil => simp [Json.insertField, get_obj_cons, Ne.symm h, Json.get]
  | cons kv rest ih =>
    by_cases hk : kv.1 = k
    · rw [show Json.insertField (kv :: rest) k v = (k, v) :: rest from by
        simp [Json.insertField, hk]]
      rw [get_obj_cons, get_obj_cons]
      rw [if_neg (Ne.symm h), if_neg (hk ▸ Ne.symm h)]
    · rw [show Json.insertField (kv :: rest) k v = kv :: Json.insertField rest k v
        from by simp [Json.insertField, hk]]
      rw [get_obj_cons, get_obj_cons]
      by_cases hkey : kv.1 = key
      · rw [if_pos hkey, if_pos hkey]
      · rw [if_neg hkey, if_neg hkey]
        exact ih

theorem any_key_insertField (fs : List (String × Json)) (k : String) (v : Json)
    (key : String) (h : key ≠ k) :
    (Json.insertField fs k v).any (fun kv => kv.1 = key) =
      fs.any (fun kv => kv.1 = key) := by
  induction fs with
  | nil => simp [Json.insertField, Ne.symm h]
  | cons kv rest ih =>
    by_cases hk : kv.1 = k
    · subst hk
      simp [Json.insertField, Ne.symm h]
    · simp [Json.insertField, hk, ih]

theorem schemaFieldsStrictOK_cons (k : String) (v : Json)
    (rest : List (String × Json)) :
    schemaFieldsStrictOK ((k, v) :: rest) =
      (schemaEntryOK k v && schemaFieldsStrictOK rest) := by
  cases v <;> simp [schemaFieldsStrictOK, schemaEntryOK]

theorem schemaEntryOK_skip (k : String) (v : Json) (h1 : ¬k = "properties")
    (h2 : ¬k = "items") (h3 : ¬(k = "anyOf" ∨ k = "oneOf" ∨ k = "allOf")) :
    schemaEntryOK k v = true := by
  simp [schemaEntryOK, h1, h2, h3]

theorem fieldsOK_insertField_other (fs : List (String × Json)) (k : String)
    (v : Json) (h1 : ¬k = "properties") (h2 : ¬k = "items")
    (h3 : ¬(k = "anyOf" ∨ k = "oneOf" ∨ k = "allOf")) :
    schemaFieldsStrictOK (Json.insertField fs k v) = schemaFieldsStrictOK fs := by
  induction fs with
  | nil =>
    rw [show Json.insertField [] k v = [(k, v)] from rfl,
      schemaFieldsStrictOK_cons, schemaEntryOK_skip k v h1 h2 h3]
    rfl
  | cons kv rest ih =>
    rcases kv with ⟨k0, v0⟩
    by_cases hk : k0 = k
    · subst hk
      rw [show Json.insertField ((k0, v0) :: rest) k0 v = (k0, v) :: rest from by
        simp [Json.insertField]]
      rw [schemaFieldsStrictOK_cons, schemaFieldsStrictOK_cons,
        schemaEntryOK_skip k0 v h1 h2 h3, schemaEntryOK_skip k0 v0 h1 h2 h3]
    · rw [show Json.insertField ((k0, v0) :: rest) k v
          = (k0, v0) :: Json.insertField rest k v from by
        simp [Json.insertField, hk]]
      rw [schemaFieldsStrictOK_cons, schemaFieldsStrictOK_cons, ih]

theorem enforceSchemaFields_nil : enforceSchemaFields [] = [] := by
  simp [enforceSchemaFields]

theorem enforceSchemaFields_cons (k : String) (v : Json)
    (rest : List (String × Json)) :
    enforceSchemaFields ((k, v) :: rest) =
      (k, enforceEntry k v) :: enforceSchemaFields rest := by
  cases v <;> simp [enforceSchemaFields, enforceEntry]

theorem enforceSchemaValues_nil : enforceSchemaValues [] = [] := by
  simp [enforceSchemaValues]

theorem enforceSchemaValues_cons (k : String) (v : Json)
    (rest : List (String × Json)) :
    enforceSchemaValues ((k, v) :: rest) =
      (k, enforce_strict_object_schema v) :: enforceSchemaValues rest := by
  simp [enforceSchemaValues]

theorem enforceSchemaList_nil : enforceSchemaList [] = [] := by
  simp [enforceSchemaList]

theorem enforceSchemaList_cons (x : Json) (xs : List Json) :
    enforceSchemaList (x :: xs) =
      enforce_strict_object_schema x :: enforceSchemaList xs := by
  simp [enforceSchemaList]

theorem enforce_obj (fields : List (String × Json)) :
    enforce_strict_object_schema (Json.obj fields) =
      enforceObjFinish (enforceSchemaFields fields) := by
  simp only [enforce_strict_object_schema, enforceObjFinish, schemaIsObject,
    schemaRequiredKeys, schemaPropKeys]
  have hmap : (match (Json.obj (enforceSchemaFields fields)).get "properties" with
      | some (Json.obj props) => List.map Json.str (Json.fieldKeys props)
      | _ => []) =
      List.map Json.str
        (match (Json.obj (enforceSchemaFields fields)).get "properties" with
        | some (Json.obj props) => Json.fieldKeys props
        | _ => []) := by
    cases h2 : (Json.obj (enforceSchemaFields fields)).get "properties" with
    | none => rfl
    | some v => cases v <;> rfl
  rw [hmap]

theorem schemaStrictOK_obj (fields : List (String × Json)) :
    schemaStrictOK (Json.obj fields) =
      (schemaNodeOK fields && schemaFieldsStrictOK fields) := by
  simp [schemaStrictOK, schemaNodeOK, schemaIsObject, schemaPropKeys]

theorem schemaFieldsStrictOK_nil : schemaFieldsStrictOK [] = true := by
  simp [schemaFieldsStrictOK]

theorem schemaValuesStrictOK_nil : schemaValuesStrictOK [] = true := by
  simp [schemaValuesStrictOK]

theorem schemaValuesStrictOK_cons (k : String) (v : Json)
    (rest : List (String × Json)) :
    schemaValuesStrictOK ((k, v) :: rest) =
      (schemaStrictOK v && schemaValuesStrictOK rest) := by
  simp [schemaValuesStrictOK]

theorem schemaListStrictOK_nil : schemaListStrictOK [] = true := by
  simp [schemaListStrictOK]

theorem schemaListStrictOK_cons (x : Json) (xs : List Json) :
    schemaListStrictOK (x :: xs) =
      (schemaStrictOK x && schemaListStrictOK xs) := by
  simp [schemaListStrictOK]

theorem schemaIsObject_insertField (fs : List (String × Json)) (k : String)
    (v : Json) (h1 : ¬("type" : String) = k) (h2 : ¬("properties" : String) = k) :
    schemaIsObject (Json.insertField fs k v) = schemaIsObject fs := by
  unfold schemaIsObject
  rw [get_insertField_other fs k v "type" h1, any_key_insertField fs k v "properties" h2]

theorem schemaPropKeys_insertField (fs : List (String × Json)) (k : String)
    (v : Json) (h : ¬("properties" : String) = k) :
    schemaPropKeys (Json.insertField fs k v) = schemaPropKeys fs := by
  unfold schemaPropKeys
  rw [get_insertField_other fs k v "properties" h]

theorem strListMatches_requiredKeys (fs : List (String × Json)) :
    strListMatches (schemaRequiredKeys fs) (schemaPropKeys fs) = true := by
  rw [schemaRequiredKeys]
  exact strListMatches_map (schemaPropKeys fs)

theorem strictOK_enforceObjFinish (recursed : List (String × Json))
    (h : schemaFieldsStrictOK recursed = true) :
    schemaStrictOK (enforceObjFinish recursed) = true := by
  unfold enforceObjFinish
  by_cases hio : schemaIsObject recursed = true
  · rw [if_pos hio, schemaStrictOK_obj]
    have hFields : schemaFieldsStrictOK (Json.insertField
        (Json.insertField recursed "additionalProperties" (Json.bool false))
        "required" (Json.arr (schemaRequiredKeys recursed))) = true := by
      rw [fieldsOK_insertField_other _ _ _ (by decide) (by decide) (by decide),
        fieldsOK_insertField_other _ _ _ (by decide) (by decide) (by decide)]
      exact h
    have hIso : schemaIsObject (Json.insertField
        (Json.insertField recursed "additionalProperties" (Json.bool false))
        "required" (Json.arr (schemaRequiredKeys recursed))) = true := by
      rw [schemaIsObject_insertField _ _ _ (by decide) (by decide),
        schemaIsObject_insertField _ _ _ (by decide) (by decide)]
      exact hio
    have hNode : schemaNodeOK (Json.insertField
        (Json.insertField recursed "additionalProperties" (Json.bool false))
        "required" (Json.arr (schemaRequiredKeys recursed))) = true := by
      unfold schemaNodeOK
      rw [if_pos hIso]
      rw [get_insertField_other _ _ _ "additionalProperties" (by decide),
        get_insertField_self]
      rw [get_insertField_self]
      rw [schemaPropKeys_insertField _ _ _ (by decide),
        schemaPropKeys_insertField _ _ _ (by decide)]
      simp [strListMatches_requiredKeys]
    rw [hNode, hFields]
    rfl
  · rw [if_neg hio, schemaStrictOK_obj]
    have hNode : schemaNodeOK recursed = true := by
      unfold schemaNodeOK
      rw [if_neg hio]
    rw [hNode, h]
    rfl

mutual

theorem enforceSchema_strictOK :
    ∀ s : Json, schemaStrictOK (enforce_strict_object_schema s) = true
  | .obj fields => by
    rw [enforce_obj]
    exact strictOK_enforceObjFinish _ (enforceSchemaFields_strictOK fields)
  | .null => by simp [enforce_strict_object_schema, schemaStrictOK]
  | .bool b => by simp [enforce_strict_object_schema, schemaStrictOK]
  | .num n => by simp [enforce_strict_object_schema, schemaStrictOK]
  | .numRaw s => by simp [enforce_strict_object_schema, schemaStrictOK]
  | .str s => by simp [enforce_strict_object_schema, schemaStrictOK]
  | .arr xs => by simp [enforce_strict_object_schema, schemaStrictOK]

theorem enforceSchemaFields_strictOK :
    ∀ fs : List (String × Json),
      schemaFieldsStrictOK (enforceSchemaFields fs) = true
  | [] => by rw [enforceSchemaFields_nil, schemaFieldsStrictOK_nil]
  | (k, v) :: rest => by
    rw [enforceSchemaFields_cons, schemaFieldsStrictOK_cons,
      enforceSchemaFields_strictOK rest]
    have hentry : schemaEntryOK k (enforceEntry k v) = true := by
      by_cases h1 : k = "properties"
      · cases v with
        | obj props =>
          simp only [enforceEntry, if_pos h1, schemaEntryOK]
          exact enforceSchemaValues_strictOK props
        | null => simp [enforceEntry, schemaEntryOK, h1]
        | bool b => simp [enforceEntry, schemaEntryOK, h1]
        | num n => simp [enforceEntry, schemaEntryOK, h1]
        | numRaw s => simp [enforceEntry, schemaEntryOK, h1]
        | str s => simp [enforceEntry, schemaEntryOK, h1]
        | arr xs => simp [enforceEntry, schemaEntryOK, h1]
      · by_cases h2 : k = "items"
        · cases v with
          | obj fs2 =>
            obtain ⟨g, hg⟩ : ∃ g,
                enforceObjFinish (enforceSchemaFields fs2) = Json.obj g := by
              unfold enforceObjFinish
              split
              · exact ⟨_, rfl⟩
              · exact ⟨_, rfl⟩
            have hok := enforceSchema_strictOK (Json.obj fs2)
            rw [enforce_obj, hg] at hok
            simp only [enforceEntry, if_neg h1, if_pos h2]
            rw [enforce_obj, hg]
            simp only [schemaEntryOK, if_neg h1, if_pos h2]
            exact hok
          | arr xs =>
            simp only [enforceEntry, if_neg h1, if_pos h2, schemaEntryOK]
            exact enforceSchemaList_strictOK xs
          | null => simp [enforceEntry, schemaEntryOK, h1, h2]
          | bool b => simp [enforceEntry, schemaEntryOK, h1, h2]
          | num n => simp [enforceEntry, schemaEntryOK, h1, h2]
          | numRaw s => simp [enforceEntry, schemaEntryOK, h1, h2]
          | str s => simp [enforceEntry, schemaEntryOK, h1, h2]
        · by_cases h3 : k = "anyOf" ∨ k = "oneOf" ∨ k = "allOf"
          · cases v with
            | arr xs =>
              simp only [enforceEntry, if_neg h1, if_neg h2, if_pos h3,
                schemaEntryOK]
              exact enforceSchemaList_strictOK xs
            | obj fs2 => simp [enforceEntry, schemaEntryOK, h1, h2, h3]
            | null => simp [enforceEntry, schemaEntryOK, h1, h2, h3]
            | bool b => simp [enforceEntry, schemaEntryOK, h1, h2, h3]
            | num n => simp [enforceEntry, schemaEntryOK, h1, h2, h3]
            | numRaw s => simp [enforceEntry, schemaEntryOK, h1, h2, h3]
            | str s => simp [enforceEntry, schemaEntryOK, h1, h2, h3]
          · exact schemaEntryOK_skip k _ h1 h2 h3
    rw [hentry]
    rfl

theorem enforceSchemaValues_strictOK :
    ∀ fs : List (String × Json),
      schemaValuesStrictOK (enforceSchemaValues fs) = true
  | [] => by rw [enforceSchemaValues_nil, schemaValuesStrictOK_nil]
  | (k, v) :: rest => by
    rw [enforceSchemaValues_cons, schemaValuesStrictOK_cons,
      enforceSchema_strictOK v, enforceSchemaValues_strictOK rest]
    rfl

theorem enforceSchemaList_strictOK :
    ∀ xs : List Json, schemaListStrictOK (enforceSchemaList xs) = true
  | [] => by rw [enforceSchemaList_nil, schemaListStrictOK_nil]
  | x :: xs => by
    rw [enforceSchemaList_cons, schemaListStrictOK_cons,
      enforceSchema_strictOK x, enforceSchemaList_strictOK xs]
    rfl

end

/-- C9: every parameter schema produced by the Codex adapter's
`build_tools` (for any provider normalization and any tool definition) is
strict: every object-typed node — recursively through `properties`,
`items` (object or array form), `anyOf`, `oneOf` and `allOf` — carries
`additionalProperties = false` and `required` equal to exactly its
declared property keys (empty when it declares none), as checked by
`schemaStrictOK`. -/
theorem codex_tool_schemas_strict (normalize : Json → Json)
    (tools : List ToolDefinition) (item : Json)
    (hmem : item ∈ build_tools normalize tools) :
    ∃ p, item.get "parameters" = some p ∧ schemaStrictOK p = true := by
  simp only [build_tools, List.mem_map] at hmem
  obtain ⟨t, ht, hitem⟩ := hmem
  refine ⟨enforce_strict_object_schema (normalize t.input_schema), ?_,
    enforceSchema_strictOK _⟩
  rw [← hitem]
  rfl

/-- Witness: the C9 theorem applied to a concrete tool definition with the
identity normalization. -/
theorem codex_tool_schemas_strict_witness :
    ∃ p, ((build_tools (fun j => j) [sampleToolDef]).headD Json.null).get
        "parameters" = some p ∧ schemaStrictOK p = true :=
  codex_tool_schemas_strict (fun j => j) [sampleToolDef]
    ((build_tools (fun j => j) [sampleToolDef]).headD Json.null)
    (List.Mem.head _)

/-! ### C2 — stream event protocol -/

theorem countStarts_append (a b : List StreamEvent) (id : String) :
    countStarts (a ++ b) id = countStarts a id + countStarts b id := by
  simp [countStarts, List.filter_append]

theorem countEnds_append (a b : List StreamEvent) (id : String) :
    countEnds (a ++ b) id = countEnds a id + countEnds b id := by
  simp [countEnds, List.filter_append]

theorem startTotal_append (a b : List StreamEvent) :
    startTotal (a ++ b) = startTotal a + startTotal b := by
  simp [startTotal, List.filter_append]

theorem eventToolIds_append (a b : List StreamEvent) :
    eventToolIds (a ++ b) = eventToolIds a ++ eventToolIds b := by
  simp [eventToolIds, List.filterMap_append]

theorem mem_eventToolIds_of_countStarts_pos (evs : List StreamEvent)
    (id : String) (h : countStarts evs id ≠ 0) : id ∈ eventToolIds evs := by
  induction evs with
  | nil => simp [countStarts] at h
  | cons e rest ih =>
    have hsplit : countStarts (e :: rest) id
        = countStarts [e] id + countStarts rest id := by
      rw [show e :: rest = [e] ++ rest from rfl, countStarts_append]
    have hmemsplit : eventToolIds (e :: rest)
        = eventToolIds [e] ++ eventToolIds rest := by
      rw [show e :: rest = [e] ++ rest from rfl, eventToolIds_append]
    rw [hsplit] at h
    rw [hmemsplit, List.mem_append]
    by_cases h1 : countStarts [e] id = 0
    · exact Or.inr (ih (by omega))
    · refine Or.inl ?_
      cases e with
      | toolUseStart i nm =>
        by_cases hi : i = id
        · simp [eventToolIds, hi]
        · exact absurd (by
            simp [countStarts, StreamEvent.isStartOf, List.filter, hi]) h1
      | textDelta t => exact absurd rfl h1
      | toolInputDelta t => exact absurd rfl h1
      | thinkingDelta t => exact absurd rfl h1
      | contentComplete sr u => exact absurd rfl h1
      | toolUseEnd i nm inp => exact absurd rfl h1

theorem mkCallId_inj (gen : Nat → String) (a b : Nat)
    (h : mkCallId gen a = mkCallId gen b) : gen a = gen b := by
  have hd := congrArg String.data h
  have h2 : ("call_" : String).data ++ (gen a).data
      = ("call_" : String).data ++ (gen b).data := by
    simpa [mkCallId, String.data] using hd
  have h3 : (gen a).data = (gen b).data := List.append_cancel_left h2
  cases hga : gen a with
  | mk la =>
  cases hgb : gen b with
  | mk lb =>
    rw [hga, hgb] at h3
    simp at h3
    rw [h3]

theorem endsPreceded_nil : EndsPreceded [] := by
  intro i id nm inp h
  simp at h

theorem endsPreceded_append_nonends (evs extra : List StreamEvent)
    (h : EndsPreceded evs)
    (hx : ∀ e ∈ extra, ∀ id nm inp, e ≠ StreamEvent.toolUseEnd id nm inp) :
    EndsPreceded (evs ++ extra) := by
  intro i id nm inp hi
  by_cases hlt : i < evs.length
  · rw [List.get?_append hlt] at hi
    obtain ⟨j, nm2, hj, hget⟩ := h i id nm inp hi
    refine ⟨j, nm2, hj, ?_⟩
    rw [List.get?_append (lt_trans hj hlt)]
    exact hget
  · push_neg at hlt
    rw [List.get?_append_right hlt] at hi
    have hmem : StreamEvent.toolUseEnd id nm inp ∈ extra := List.get?_mem hi
    exact absurd rfl (hx _ hmem id nm inp)

theorem endsPreceded_append_triple (evs : List StreamEvent)
    (id nm s : String) (inp : Json) (h : EndsPreceded evs) :
    EndsPreceded (evs ++ [StreamEvent.toolUseStart id nm,
      StreamEvent.toolInputDelta s, StreamEvent.toolUseEnd id nm inp]) := by
  intro i id2 nm2 inp2 hi
  by_cases hlt : i < evs.length
  · rw [List.get?_append hlt] at hi
    obtain ⟨j, nm3, hj, hget⟩ := h i id2 nm2 inp2 hi
    refine ⟨j, nm3, hj, ?_⟩
    rw [List.get?_append (lt_trans hj hlt)]
    exact hget
  · push_neg at hlt
    rw [List.get?_append_right hlt] at hi
    have hbound : i - evs.length < 3 := by
      by_contra hge
      push_neg at hge
      rw [List.get?_eq_none.mpr (by simpa using hge)] at hi
      exact Option.noConfusion hi
    interval_cases h3 : (i - evs.length)
    · simp at hi
    · simp at hi
    · simp at hi
      refine ⟨evs.length, nm, by omega, ?_⟩
      rw [List.get?_append_right (le_refl _)]
      simp [hi.1]

theorem countStarts_triple (id nm s : String) (inp : Json) (id2 : String) :
    countStarts [StreamEvent.toolUseStart id nm, StreamEvent.toolInputDelta s,
      StreamEvent.toolUseEnd id nm inp] id2 = if id = id2 then 1 else 0 := by
  by_cases h : id = id2 <;>
    simp [countStarts, StreamEvent.isStartOf, StreamEvent.isEndOf, List.filter, h]

theorem countEnds_triple (id nm s : String) (inp : Json) (id2 : String) :
    countEnds [StreamEvent.toolUseStart id nm, StreamEvent.toolInputDelta s,
      StreamEvent.toolUseEnd id nm inp] id2 = if id = id2 then 1 else 0 := by
  by_cases h : id = id2 <;>
    simp [countEnds, StreamEvent.isStartOf, StreamEvent.isEndOf, List.filter, h]

theorem mem_eventToolIds_of_countEnds_pos (evs : List StreamEvent)
    (id : String) (h : countEnds evs id ≠ 0) : id ∈ eventToolIds evs := by
  induction evs with
  | nil => simp [countEnds] at h
  | cons e rest ih =>
    have hsplit : countEnds (e :: rest) id
        = countEnds [e] id + countEnds rest id := by
      rw [show e :: rest = [e] ++ rest from rfl, countEnds_append]
    have hmemsplit : eventToolIds (e :: rest)
        = eventToolIds [e] ++ eventToolIds rest := by
      rw [show e :: rest = [e] ++ rest from rfl, eventToolIds_append]
    rw [hsplit] at h
    rw [hmemsplit, List.mem_append]
    by_cases h1 : countEnds [e] id = 0
    · exact Or.inr (ih (by omega))
    · refine Or.inl ?_
      cases e with
      | toolUseEnd i nm inp =>
        by_cases hi : i = id
        · simp [eventToolIds, hi]
        · exact absurd (by
            simp [countEnds, StreamEvent.isEndOf, List.filter, hi]) h1
      | textDelta t => exact absurd rfl h1
      | toolInputDelta t => exact absurd rfl h1
      | thinkingDelta t => exact absurd rfl h1
      | contentComplete sr u => exact absurd rfl h1
      | toolUseStart i nm => exact absurd rfl h1

theorem geminiProcessPart_inv (gen : Nat → String)
    (hinj : Function.Injective gen) (ctr0 : Nat) (st : GeminiStreamState)
    (part : GeminiPart) (h : GeminiEvInv gen ctr0 st) :
    GeminiEvInv gen ctr0 (geminiProcessPart gen st part) := by
  obtain ⟨hle, hrange, hcnt, hcc, hprec⟩ := h
  cases part with
  | inlineData d => exact ⟨hle, hrange, hcnt, hcc, hprec⟩
  | functionResponse r => exact ⟨hle, hrange, hcnt, hcc, hprec⟩
  | text t =>
    by_cases ht : t = ""
    · have heq : geminiProcessPart gen st (.text t) = st := by
        simp [geminiProcessPart, ht]
      rw [heq]
      exact ⟨hle, hrange, hcnt, hcc, hprec⟩
    · simp only [geminiProcessPart, if_pos (show t ≠ "" from ht)]
      refine ⟨hle, ?_, ?_, ?_, ?_⟩
      · intro id hid
        rw [eventToolIds_append,
          show eventToolIds [StreamEvent.textDelta t] = [] from rfl,
          List.append_nil] at hid
        exact hrange id hid
      · intro k hk1 hk2
        rw [countStarts_append, countEnds_append,
          show countStarts [StreamEvent.textDelta t] (mkCallId gen k) = 0 from rfl,
          show countEnds [StreamEvent.textDelta t] (mkCallId gen k) = 0 from rfl]
        have := hcnt k hk1 hk2
        omega
      · intro e he
        rw [List.mem_append] at he
        rcases he with he | he
        · exact hcc e he
        · rw [List.mem_singleton] at he
          subst he
          rfl
      · refine endsPreceded_append_nonends _ _ hprec ?_
        intro e he id nm inp
        rw [List.mem_singleton] at he
        subst he
        simp
  | functionCall fc =>
    simp only [geminiProcessPart]
    refine ⟨?_, ?_, ?_, ?_, ?_⟩
    · dsimp only
      omega
    · dsimp only
      intro id hid
      rw [eventToolIds_append] at hid
      rw [List.mem_append] at hid
      rcases hid with hid | hid
      · obtain ⟨k, hk1, hk2, hk3⟩ := hrange id hid
        exact ⟨k, hk1, by omega, hk3⟩
      · rw [show eventToolIds [StreamEvent.toolUseStart (mkCallId gen st.ctr) fc.name,
            StreamEvent.toolInputDelta fc.args.serialize,
            StreamEvent.toolUseEnd (mkCallId gen st.ctr) fc.name fc.args]
              = [mkCallId gen st.ctr, mkCallId gen st.ctr] from rfl] at hid
        simp at hid
        exact ⟨st.ctr, hle, Nat.lt_succ_self _, hid⟩
    · dsimp only
      intro k hk1 hk2
      rw [countStarts_append, countEnds_append, countStarts_triple, countEnds_triple]
      by_cases hkc : k = st.ctr
      · have hs0 : countStarts st.events (mkCallId gen k) = 0 := by
          by_contra hne
          obtain ⟨k2, hk21, hk22, hk23⟩ :=
            hrange _ (mem_eventToolIds_of_countStarts_pos _ _ hne)
          have := hinj (mkCallId_inj gen _ _ hk23)
          omega
        have he0 : countEnds st.events (mkCallId gen k) = 0 := by
          by_contra hne
          obtain ⟨k2, hk21, hk22, hk23⟩ :=
            hrange _ (mem_eventToolIds_of_countEnds_pos _ _ hne)
          have := hinj (mkCallId_inj gen _ _ hk23)
          omega
        rw [hs0, he0, hkc, if_pos rfl]
        exact ⟨rfl, rfl⟩
      · have hklt : k < st.ctr := by omega
        have hne : ¬ mkCallId gen st.ctr = mkCallId gen k := by
          intro hEq
          have := hinj (mkCallId_inj gen _ _ hEq)
          omega
        rw [if_neg hne]
        have := hcnt k hk1 hklt
        omega
    · dsimp only
      intro e he
      rw [List.mem_append] at he
      rcases he with he | he
      · exact hcc e he
      · simp at he
        rcases he with rfl | rfl | rfl <;> rfl
    · dsimp only
      exact endsPreceded_append_triple _ _ _ _ _ hprec

theorem geminiProcessCandidate_inv (gen : Nat → String)
    (hinj : Function.Injective gen) (ctr0 : Nat) (st : GeminiStreamState)
    (candidate : GeminiCandidate) (h : GeminiEvInv gen ctr0 st) :
    GeminiEvInv gen ctr0 (geminiProcessCandidate gen st candidate) := by
  cases hco : candidate.content with
  | none =>
    cases hfr : candidate.finish_reason with
    | none => simpa [geminiProcessCandidate, hco, hfr] using h
    | some fr =>
      simp only [geminiProcessCandidate, hco, hfr]
      exact h
  | some content =>
    cases hfr : candidate.finish_reason with
    | none =>
      simp only [geminiProcessCandidate, hco, hfr]
      exact foldl_preserve (GeminiEvInv gen ctr0) (geminiProcessPart gen)
        content.parts st h
        (fun s x hP => geminiProcessPart_inv gen hinj ctr0 s x hP)
    | some fr =>
      simp only [geminiProcessCandidate, hco, hfr]
      exact foldl_preserve (GeminiEvInv gen ctr0) (geminiProcessPart gen)
        content.parts { st with finish_reason := some fr } h
        (fun s x hP => geminiProcessPart_inv gen hinj ctr0 s x hP)

theorem geminiProcessChunk_inv (gen : Nat → String)
    (hinj : Function.Injective gen) (ctr0 : Nat) (st : GeminiStreamState)
    (data : String) (h : GeminiEvInv gen ctr0 st) :
    GeminiEvInv gen ctr0 (geminiProcessChunk gen st data) := by
  by_cases hd : data = ""
  · simpa [geminiProcessChunk, hd] using h
  · simp only [geminiProcessChunk, if_neg hd]
    cases hp : parseGeminiResponse data with
    | none => exact h
    | some json =>
      dsimp only
      cases hu : json.usage_metadata with
      | none =>
        dsimp only
        exact foldl_preserve (GeminiEvInv gen ctr0) (geminiProcessCandidate gen)
          json.candidates st h
          (fun s x hP => geminiProcessCandidate_inv gen hinj ctr0 s x hP)
      | some u =>
        dsimp only
        exact foldl_preserve (GeminiEvInv gen ctr0) (geminiProcessCandidate gen)
          json.candidates
          { st with usage := { input_tokens := u.prompt_token_count,
                               output_tokens := u.candidates_token_count } } h
          (fun s x hP => geminiProcessCandidate_inv gen hinj ctr0 s x hP)

theorem geminiStreamRun_inv (gen : Nat → String)
    (hinj : Function.Injective gen) (ctr : Nat) (chunks : List String) :
    GeminiEvInv gen ctr (chunks.foldl (geminiProcessChunk gen) (geminiInitState ctr)) := by
  refine foldl_preserve (GeminiEvInv gen ctr) (geminiProcessChunk gen) chunks
    (geminiInitState ctr) ?_ (fun s x hP => geminiProcessChunk_inv gen hinj ctr s x hP)
  refine ⟨le_refl _, ?_, ?_, ?_, endsPreceded_nil⟩
  · intro id hid
    simp [geminiInitState, eventToolIds] at hid
  · intro k hk1 hk2
    simp [geminiInitState] at hk1 hk2
    omega
  · intro e he
    simp [geminiInitState] at he

theorem geminiFinalize_events (gen : Nat → String) (st : GeminiStreamState) :
    ∃ sr, (geminiFinalize gen st).1
      = st.events ++ [StreamEvent.contentComplete sr st.usage] := by
  unfold geminiFinalize
  exact ⟨_, rfl⟩

theorem setInsert_new (s : List String) (x : String) (h : x ∉ s) :
    setInsert s x = (true, s ++ [x]) := by
  simp [setInsert, h]

theorem setInsert_old (s : List String) (x : String) (h : x ∈ s) :
    setInsert s x = (false, s) := by
  simp [setInsert, h]

theorem countEnds_single_end (i nm : String) (inp : Json) (id : String) :
    countEnds [StreamEvent.toolUseEnd i nm inp] id = if i = id then 1 else 0 := by
  by_cases h : i = id <;> simp [countEnds, StreamEvent.isEndOf, List.filter, h]

theorem codexTextDeltaArm_step (st : CodexStreamState) (j : Json)
    (h : CodexEvInv st) :
    CodexEvInv (codexTextDeltaArm st j) ∧
    (codexTextDeltaArm st j).started_item_ids = st.started_item_ids := by
  obtain ⟨hcc, hends, hstart⟩ := h
  unfold codexTextDeltaArm
  cases hd : (j.get "delta").bind Json.asStr with
  | none => exact ⟨⟨hcc, hends, hstart⟩, rfl⟩
  | some delta =>
    dsimp only
    by_cases hne : delta ≠ ""
    · rw [if_pos hne]
      refine ⟨⟨?_, ?_, ?_⟩, rfl⟩
      · intro e he
        dsimp only at he
        rw [List.mem_append] at he
        rcases he with he | he
        · exact hcc e he
        · rw [List.mem_singleton] at he
          subst he
          rfl
      · intro id
        dsimp only
        rw [countEnds_append,
          show countEnds [StreamEvent.textDelta delta] id = 0 from rfl,
          Nat.add_zero]
        exact hends id
      · dsimp only
        rw [startTotal_append,
          show startTotal [StreamEvent.textDelta delta] = 0 from rfl,
          Nat.add_zero]
        exact hstart
    · rw [if_neg hne]
      exact ⟨⟨hcc, hends, hstart⟩, rfl⟩

theorem codexCompletedArm_step (st : CodexStreamState) (j : Json)
    (h : CodexEvInv st) :
    CodexEvInv (codexCompletedArm st j) ∧
    (codexCompletedArm st j).started_item_ids = st.started_item_ids := by
  obtain ⟨hcc, hends, hstart⟩ := h
  unfold codexCompletedArm
  cases hd : j.get "response" with
  | none => exact ⟨⟨hcc, hends, hstart⟩, rfl⟩
  | some response => exact ⟨⟨hcc, hends, hstart⟩, rfl⟩

theorem codexArgsDeltaArm_step (st : CodexStreamState) (j : Json)
    (h : CodexEvInv st) :
    CodexEvInv (codexArgsDeltaArm st j) ∧
    (codexArgsDeltaArm st j).started_item_ids = st.started_item_ids := by
  obtain ⟨hcc, hends, hstart⟩ := h
  unfold codexArgsDeltaArm
  dsimp only
  by_cases hii : ((j.get "item_id").bind Json.asStr).getD "" ≠ "" <;>
    by_cases hdd : ((j.get "delta").bind Json.asStr).getD "" ≠ "" <;>
      [rw [if_pos hii, if_pos hdd]; rw [if_pos hii, if_neg hdd];
       rw [if_neg hii, if_pos hdd]; rw [if_neg hii, if_neg hdd]]
  · refine ⟨⟨?_, ?_, ?_⟩, rfl⟩
    · intro e he
      dsimp only at he
      rw [List.mem_append] at he
      rcases he with he | he
      · exact hcc e he
      · rw [List.mem_singleton] at he
        subst he
        rfl
    · intro id
      dsimp only
      rw [countEnds_append,
        show countEnds [StreamEvent.toolInputDelta
          (((j.get "delta").bind Json.asStr).getD "")] id = 0 from rfl,
        Nat.add_zero]
      exact hends id
    · dsimp only
      rw [startTotal_append,
        show startTotal [StreamEvent.toolInputDelta
          (((j.get "delta").bind Json.asStr).getD "")] = 0 from rfl,
        Nat.add_zero]
      exact hstart
  · exact ⟨⟨hcc, hends, hstart⟩, rfl⟩
  · refine ⟨⟨?_, ?_, ?_⟩, rfl⟩
    · intro e he
      dsimp only at he
      rw [List.mem_append] at he
      rcases he with he | he
      · exact hcc e he
      · rw [List.mem_singleton] at he
        subst he
        rfl
    · intro id
      dsimp only
      rw [countEnds_append,
        show countEnds [StreamEvent.toolInputDelta
          (((j.get "delta").bind Json.asStr).getD "")] id = 0 from rfl,
        Nat.add_zero]
      exact hends id
    · dsimp only
      rw [startTotal_append,
        show startTotal [StreamEvent.toolInputDelta
          (((j.get "delta").bind Json.asStr).getD "")] = 0 from rfl,
        Nat.add_zero]
      exact hstart
  · exact ⟨⟨hcc, hends, hstart⟩, rfl⟩

theorem codexItemAddedArm_step (st : CodexStreamState) (j : Json)
    (h : CodexEvInv st) :
    CodexEvInv (codexItemAddedArm st j) ∧
    (codexItemAddedArm st j).started_item_ids
      = codexAddedStep st.started_item_ids ("response.output_item.added", j) := by
  obtain ⟨hcc, hends, hstart⟩ := h
  have hstep : codexAddedStep st.started_item_ids ("response.output_item.added", j)
      = (match j.get "item" with
         | some item =>
           if item.isObject then
             if ((item.get "type").bind Json.asStr).getD "" = "function_call" then
               if ((item.get "id").bind Json.asStr).getD "" ≠ "" then
                 (setInsert st.started_item_ids
                   (((item.get "id").bind Json.asStr).getD "")).2
               else st.started_item_ids
             else st.started_item_ids
           else st.started_item_ids
         | none => st.started_item_ids) := by
    simp [codexAddedStep]
  rw [hstep]
  unfold codexItemAddedArm
  cases hitem : j.get "item" with
  | none => exact ⟨⟨hcc, hends, hstart⟩, rfl⟩
  | some item =>
    dsimp only
    by_cases hio : item.isObject = true
    · rw [if_pos hio, if_pos hio]
      by_cases hty : ((item.get "type").bind Json.asStr).getD "" = "function_call"
      · rw [if_pos hty, if_pos hty]
        by_cases hid : ((item.get "id").bind Json.asStr).getD "" ≠ ""
        · rw [if_pos hid, if_pos hid]
          by_cases hmem : ((item.get "id").bind Json.asStr).getD ""
              ∈ st.started_item_ids
          · rw [setInsert_old _ _ hmem]
            dsimp only
            rw [if_neg Bool.false_ne_true]
            exact ⟨⟨hcc, hends, hstart⟩, rfl⟩
          · rw [setInsert_new _ _ hmem]
            dsimp only
            rw [if_pos rfl]
            refine ⟨⟨?_, ?_, ?_⟩, rfl⟩
            · intro e he
              dsimp only at he
              rw [List.mem_append] at he
              rcases he with he | he
              · exact hcc e he
              · rw [List.mem_singleton] at he
                subst he
                rfl
            · intro id
              dsimp only
              rw [countEnds_append,
                show countEnds [StreamEvent.toolUseStart (codexItemCallId item)
                  (((item.get "name").bind Json.asStr).getD "")] id = 0 from rfl,
                Nat.add_zero]
              exact hends id
            · dsimp only
              rw [startTotal_append,
                show startTotal [StreamEvent.toolUseStart (codexItemCallId item)
                  (((item.get "name").bind Json.asStr).getD "")] = 1 from rfl,
                List.length_append]
              simp [hstart]
        · rw [if_neg hid, if_neg hid]
          exact ⟨⟨hcc, hends, hstart⟩, rfl⟩
      · rw [if_neg hty, if_neg hty]
        exact ⟨⟨hcc, hends, hstart⟩, rfl⟩
    · rw [if_neg hio, if_neg hio]
      exact ⟨⟨hcc, hends, hstart⟩, rfl⟩

theorem codexArgsDoneArm_step (st : CodexStreamState) (j : Json)
    (h : CodexEvInv st) :
    CodexEvInv (codexArgsDoneArm st j) ∧
    (codexArgsDoneArm st j).started_item_ids = st.started_item_ids := by
  obtain ⟨hcc, hends, hstart⟩ := h
  unfold codexArgsDoneArm
  dsimp only
  by_cases hii : ((j.get "item_id").bind Json.asStr).getD "" ≠ ""
  · rw [if_pos hii]
    cases hmeta : assocGet st.tool_meta (((j.get "item_id").bind Json.asStr).getD "") with
    | none => exact ⟨⟨hcc, hends, hstart⟩, rfl⟩
    | some callName =>
      dsimp only
      by_cases hmem : callName.1 ∈ st.ended_call_ids
      · rw [setInsert_old _ _ hmem]
        dsimp only
        rw [if_neg Bool.false_ne_true]
        exact ⟨⟨hcc, hends, hstart⟩, rfl⟩
      · rw [setInsert_new _ _ hmem]
        dsimp only
        rw [if_pos rfl]
        refine ⟨⟨?_, ?_, ?_⟩, rfl⟩
        · intro e he
          dsimp only at he
          rw [List.mem_append] at he
          rcases he with he | he
          · exact hcc e he
          · rw [List.mem_singleton] at he
            subst he
            rfl
        · intro id
          dsimp only
          rw [countEnds_append, countEnds_single_end]
          by_cases hid : callName.1 = id
          · subst hid
            have h0 := hends callName.1
            rw [if_neg hmem] at h0
            have hm : callName.1 ∈ st.ended_call_ids ++ [callName.1] := by simp
            rw [if_pos rfl, if_pos hm]
            omega
          · rw [if_neg hid]
            by_cases hmem2 : id ∈ st.ended_call_ids
            · rw [if_pos (List.mem_append.mpr (Or.inl hmem2))]
              have := hends id
              rw [if_pos hmem2] at this
              omega
            · have hnot : ¬ id ∈ st.ended_call_ids ++ [callName.1] := by
                intro hin
                rcases List.mem_append.mp hin with h2 | h2
                · exact hmem2 h2
                · rw [List.mem_singleton] at h2
                  exact hid h2.symm
              rw [if_neg hnot]
              have := hends id
              rw [if_neg hmem2] at this
              omega
        · dsimp only
          rw [startTotal_append,
            show startTotal [StreamEvent.toolUseEnd callName.1 callName.2
              ((parseJson (((j.get "arguments").bind Json.asStr).getD "\x7b\x7d")).getD
                (Json.obj []))] = 0 from rfl,
            Nat.add_zero]
          exact hstart
  · rw [if_neg hii]
    exact ⟨⟨hcc, hends, hstart⟩, rfl⟩

theorem codexItemDoneArm_step (st : CodexStreamState) (j : Json)
    (h : CodexEvInv st) :
    CodexEvInv (codexItemDoneArm st j) ∧
    (codexItemDoneArm st j).started_item_ids = st.started_item_ids := by
  obtain ⟨hcc, hends, hstart⟩ := h
  unfold codexItemDoneArm
  cases hitem : j.get "item" with
  | none => exact ⟨⟨hcc, hends, hstart⟩, rfl⟩
  | some item =>
    dsimp only
    by_cases hio : item.isObject = true
    · rw [if_pos hio]
      by_cases hty : ((item.get "type").bind Json.asStr).getD "" = "function_call"
      · rw [if_pos hty]
        by_cases hcn : codexItemCallId item ≠ "" ∧
            ((item.get "name").bind Json.asStr).getD "" ≠ ""
        · rw [if_pos hcn]
          by_cases hmem : codexItemCallId item ∈ st.ended_call_ids
          · rw [setInsert_old _ _ hmem]
            dsimp only
            rw [if_neg Bool.false_ne_true]
            exact ⟨⟨hcc, hends, hstart⟩, rfl⟩
          · rw [setInsert_new _ _ hmem]
            dsimp only
            rw [if_pos rfl]
            refine ⟨⟨?_, ?_, ?_⟩, rfl⟩
            · intro e he
              dsimp only at he
              rw [List.mem_append] at he
              rcases he with he | he
              · exact hcc e he
              · rw [List.mem_singleton] at he
                subst he
                rfl
            · intro id
              dsimp only
              rw [countEnds_append, countEnds_single_end]
              by_cases hid : codexItemCallId item = id
              · subst hid
                have h0 := hends (codexItemCallId item)
                rw [if_neg hmem] at h0
                have hm : codexItemCallId item
                    ∈ st.ended_call_ids ++ [codexItemCallId item] := by simp
                rw [if_pos rfl, if_pos hm]
                omega
              · rw [if_neg hid]
                by_cases hmem2 : id ∈ st.ended_call_ids
                · rw [if_pos (List.mem_append.mpr (Or.inl hmem2))]
                  have := hends id
                  rw [if_pos hmem2] at this
                  omega
                · have hnot : ¬ id ∈ st.ended_call_ids ++ [codexItemCallId item] := by
                    intro hin
                    rcases List.mem_append.mp hin with h2 | h2
                    · exact hmem2 h2
                    · rw [List.mem_singleton] at h2
                      exact hid h2.symm
                  rw [if_neg hnot]
                  have := hends id
                  rw [if_neg hmem2] at this
                  omega
            · dsimp only
              rw [startTotal_append,
                show startTotal [StreamEvent.toolUseEnd (codexItemCallId item)
                  (((item.get "name").bind Json.asStr).getD "")
                  ((parseJson (((item.get "arguments").bind Json.asStr).getD "\x7b\x7d")).getD
                    (Json.obj []))] = 0 from rfl,
                Nat.add_zero]
              exact hstart
        · rw [if_neg hcn]
          exact ⟨⟨hcc, hends, hstart⟩, rfl⟩
      · rw [if_neg hty]
        exact ⟨⟨hcc, hends, hstart⟩, rfl⟩
    · rw [if_neg hio]
      exact ⟨⟨hcc, hends, hstart⟩, rfl⟩

theorem codexProcessEvent_step (st : CodexStreamState) (n : String) (j : Json)
    (h : CodexEvInv st) :
    CodexEvInv (codexProcessEvent st n j) ∧
    (codexProcessEvent st n j).started_item_ids
      = codexAddedStep st.started_item_ids (n, j) := by
  by_cases h1 : n = "response.output_text.delta"
  · subst h1
    rw [show codexProcessEvent st "response.output_text.delta" j
        = codexTextDeltaArm st j from by simp [codexProcessEvent]]
    obtain ⟨hi, hs⟩ := codexTextDeltaArm_step st j h
    exact ⟨hi, by rw [hs]; simp [codexAddedStep]⟩
  · by_cases h2 : n = "response.output_item.added"
    · subst h2
      rw [show codexProcessEvent st "response.output_item.added" j
          = codexItemAddedArm st j from by simp [codexProcessEvent]]
      exact codexItemAddedArm_step st j h
    · by_cases h3 : n = "response.function_call_arguments.delta"
      · subst h3
        rw [show codexProcessEvent st "response.function_call_arguments.delta" j
            = codexArgsDeltaArm st j from by simp [codexProcessEvent]]
        obtain ⟨hi, hs⟩ := codexArgsDeltaArm_step st j h
        exact ⟨hi, by rw [hs]; simp [codexAddedStep]⟩
      · by_cases h4 : n = "response.function_call_arguments.done"
        · subst h4
          rw [show codexProcessEvent st "response.function_call_arguments.done" j
              = codexArgsDoneArm st j from by simp [codexProcessEvent]]
          obtain ⟨hi, hs⟩ := codexArgsDoneArm_step st j h
          exact ⟨hi, by rw [hs]; simp [codexAddedStep]⟩
        · by_cases h5 : n = "response.output_item.done"
          · subst h5
            rw [show codexProcessEvent st "response.output_item.done" j
                = codexItemDoneArm st j from by simp [codexProcessEvent]]
            obtain ⟨hi, hs⟩ := codexItemDoneArm_step st j h
            exact ⟨hi, by rw [hs]; simp [codexAddedStep]⟩
          · by_cases h6 : n = "response.completed"
            · subst h6
              rw [show codexProcessEvent st "response.completed" j
                  = codexCompletedArm st j from by simp [codexProcessEvent]]
              obtain ⟨hi, hs⟩ := codexCompletedArm_step st j h
              exact ⟨hi, by rw [hs]; simp [codexAddedStep]⟩
            · rw [show codexProcessEvent st n j = st from by
                simp only [codexProcessEvent]
                rw [if_neg h1, if_neg h2, if_neg h3, if_neg h4, if_neg h5,
                  if_neg h6]]
              exact ⟨h, by simp [codexAddedStep, h2]⟩

theorem codexFold_step (evsIn : List (String × Json)) :
    ∀ (st : CodexStreamState) (acc : List String),
      CodexEvInv st → st.started_item_ids = acc →
      CodexEvInv (evsIn.foldl (fun s ev => codexProcessEvent s ev.1 ev.2) st) ∧
      (evsIn.foldl (fun s ev => codexProcessEvent s ev.1 ev.2) st).started_item_ids
        = evsIn.foldl codexAddedStep acc := by
  induction evsIn with
  | nil =>
    intro st acc h hacc
    exact ⟨h, hacc⟩
  | cons ev rest ih =>
    intro st acc h hacc
    rw [List.foldl_cons, List.foldl_cons]
    obtain ⟨hi, hs⟩ := codexProcessEvent_step st ev.1 ev.2 h
    refine ih _ _ hi ?_
    rw [hs, hacc]

theorem codexInitState_inv : CodexEvInv codexInitState := by
  refine ⟨?_, ?_, rfl⟩
  · intro e he
    simp [codexInitState] at he
  · intro id
    simp [codexInitState, countEnds]

theorem codexFinish_events (st : CodexStreamState) :
    ∃ sr u, (codexFinish st).1
      = st.events ++ [StreamEvent.contentComplete sr u] := by
  unfold codexFinish
  exact ⟨_, _, rfl⟩

/-- C2 counterexample: the Codex adapter keys `ToolUseStart` de-duplication
by item id but `ToolUseEnd` de-duplication by call id, so two
`output_item.added` events with distinct item ids and a shared call id
(after an `output_item.done` for that call id) produce two `ToolUseStart`
events for one observed id, and the `ToolUseEnd` precedes both starts. -/
theorem codex_duplicate_start_counterexample :
    (codexRunCompletion
      [codexDoneEvent "c", codexAddedEvent "i1" "c", codexAddedEvent "i2" "c"]).1 =
      [StreamEvent.toolUseEnd "c" "f" Json.null,
       StreamEvent.toolUseStart "c" "f",
       StreamEvent.toolUseStart "c" "f",
       StreamEvent.contentComplete StopReason.toolUse {}] ∧
    countStarts (codexRunCompletion
      [codexDoneEvent "c", codexAddedEvent "i1" "c", codexAddedEvent "i2" "c"]).1
      "c" = 2 :=
  ⟨rfl, rfl⟩

/-- C2 (amended): in the Gemini streaming adapter, when the uuid supply is
injective, every tool-call id observed in the emitted events carries
exactly one `ToolUseStart` and exactly one `ToolUseEnd`, the start strictly
precedes the end, and exactly one `ContentComplete` is emitted, as the last
event.  The Codex adapter guarantees exactly one terminal `ContentComplete`
and at most one `ToolUseEnd` per call id, but keys `ToolUseStart`
de-duplication by *item* id — it emits one `ToolUseStart` per distinct
non-empty added function-call item id, so a call id can receive several
`ToolUseStart`s and an end can precede its start. -/
theorem stream_event_protocol (gen : Nat → String)
    (hinj : Function.Injective gen) (ctr : Nat) (chunks : List String)
    (evsIn : List (String × Json)) :
    ((∀ id, id ∈ eventToolIds (geminiStreamRun gen ctr chunks).1 →
        countStarts (geminiStreamRun gen ctr chunks).1 id = 1 ∧
        countEnds (geminiStreamRun gen ctr chunks).1 id = 1) ∧
      EndsPreceded (geminiStreamRun gen ctr chunks).1 ∧
      (∃ body sr u, (geminiStreamRun gen ctr chunks).1
          = body ++ [StreamEvent.contentComplete sr u] ∧
        ∀ e ∈ body, e.isContentComplete = false)) ∧
    ((∀ id, countEnds (codexRunCompletion evsIn).1 id ≤ 1) ∧
      startTotal (codexRunCompletion evsIn).1 = (codexAddedItemIds evsIn).length ∧
      (∃ body sr u, (codexRunCompletion evsIn).1
          = body ++ [StreamEvent.contentComplete sr u] ∧
        ∀ e ∈ body, e.isContentComplete = false)) := by
  constructor
  · obtain ⟨hle, hrange, hcnt, hcc, hprec⟩ := geminiStreamRun_inv gen hinj ctr chunks
    obtain ⟨sr, hev⟩ := geminiFinalize_events gen
      (chunks.foldl (geminiProcessChunk gen) (geminiInitState ctr))
    have hrun : (geminiStreamRun gen ctr chunks).1
        = (chunks.foldl (geminiProcessChunk gen) (geminiInitState ctr)).events
          ++ [StreamEvent.contentComplete sr
              (chunks.foldl (geminiProcessChunk gen) (geminiInitState ctr)).usage] := hev
    refine ⟨?_, ?_, ?_⟩
    · intro id hid
      rw [hrun, eventToolIds_append,
        show eventToolIds [StreamEvent.contentComplete sr
          (chunks.foldl (geminiProcessChunk gen) (geminiInitState ctr)).usage]
          = [] from rfl, List.append_nil] at hid
      obtain ⟨k, hk1, hk2, hk3⟩ := hrange id hid
      have hc := hcnt k hk1 hk2
      rw [hrun, countStarts_append, countEnds_append,
        show countStarts [StreamEvent.contentComplete sr
          (chunks.foldl (geminiProcessChunk gen) (geminiInitState ctr)).usage]
          id = 0 from rfl,
        show countEnds [StreamEvent.contentComplete sr
          (chunks.foldl (geminiProcessChunk gen) (geminiInitState ctr)).usage]
          id = 0 from rfl, hk3]
      omega
    · rw [hrun]
      refine endsPreceded_append_nonends _ _ hprec ?_
      intro e he id nm inp
      rw [List.mem_singleton] at he
      subst he
      simp
    · exact ⟨_, sr, _, hrun, hcc⟩
  · obtain ⟨⟨hccF, hendsF, hstF⟩, hstartedF⟩ :=
      codexFold_step evsIn codexInitState [] codexInitState_inv rfl
    obtain ⟨sr2, u2, hev2⟩ := codexFinish_events
      (evsIn.foldl (fun s ev => codexProcessEvent s ev.1 ev.2) codexInitState)
    have hrun2 : (codexRunCompletion evsIn).1
        = (evsIn.foldl (fun s ev => codexProcessEvent s ev.1 ev.2) codexInitState).events
          ++ [StreamEvent.contentComplete sr2 u2] := hev2
    refine ⟨?_, ?_, ⟨_, sr2, u2, hrun2, hccF⟩⟩
    · intro id
      rw [hrun2, countEnds_append,
        show countEnds [StreamEvent.contentComplete sr2 u2] id = 0 from rfl,
        Nat.add_zero]
      have hb := hendsF id
      by_cases hm : id ∈ (evsIn.foldl (fun s ev => codexProcessEvent s ev.1 ev.2)
          codexInitState).ended_call_ids
      · rw [if_pos hm] at hb
        omega
      · rw [if_neg hm] at hb
        omega
    · rw [hrun2, startTotal_append,
        show startTotal [StreamEvent.contentComplete sr2 u2] = 0 from rfl,
        Nat.add_zero, hstF, hstartedF]
      rfl

/-- Witness: the C2 theorem applied at the injective uuid supply `replGen`,
a one-chunk Gemini stream and a concrete Codex event list. -/
theorem stream_event_protocol_witness :
    ((∀ id, id ∈ eventToolIds (geminiStreamRun replGen 0 [geminiStopToolChunk]).1 →
        countStarts (geminiStreamRun replGen 0 [geminiStopToolChunk]).1 id = 1 ∧
        countEnds (geminiStreamRun replGen 0 [geminiStopToolChunk]).1 id = 1) ∧
      EndsPreceded (geminiStreamRun replGen 0 [geminiStopToolChunk]).1 ∧
      (∃ body sr u, (geminiStreamRun replGen 0 [geminiStopToolChunk]).1
          = body ++ [StreamEvent.contentComplete sr u] ∧
        ∀ e ∈ body, e.isContentComplete = false)) ∧
    ((∀ id, countEnds (codexRunCompletion
        [codexDoneEvent "c2w", codexAddedEvent "i1" "c2w"]).1 id ≤ 1) ∧
      startTotal (codexRunCompletion
        [codexDoneEvent "c2w", codexAddedEvent "i1" "c2w"]).1
        = (codexAddedItemIds
            [codexDoneEvent "c2w", codexAddedEvent "i1" "c2w"]).length ∧
      (∃ body sr u, (codexRunCompletion
          [codexDoneEvent "c2w", codexAddedEvent "i1" "c2w"]).1
          = body ++ [StreamEvent.contentComplete sr u] ∧
        ∀ e ∈ body, e.isContentComplete = false)) :=
  stream_event_protocol replGen
    (fun a b h => by
      have hd : List.replicate a 'x' = List.replicate b 'x' := congrArg String.data h
      simpa using congrArg List.length hd)
    0 [geminiStopToolChunk] [codexDoneEvent "c2w", codexAddedEvent "i1" "c2w"]

/-! ### C10 — Gemini stream id freshness -/

theorem blockToolIds_append (a b : List ContentBlock) :
    blockToolIds (a ++ b) = blockToolIds a ++ blockToolIds b := by
  simp [blockToolIds, List.filterMap_append]

theorem geminiFinalCallsGo_ids (gen : Nat → String) (ctr0 : Nat) :
    ∀ (fn_calls : List (String × Json))
      (acc : List ContentBlock × List ToolCall × Nat),
      ctr0 ≤ acc.2.2 →
      (∀ call ∈ acc.2.1, ∃ k, ctr0 ≤ k ∧ call.id = mkCallId gen k) →
      (∀ bid ∈ blockToolIds acc.1, ∃ k, ctr0 ≤ k ∧ bid = mkCallId gen k) →
      (∀ call ∈ (fn_calls.foldl
          (fun (acc : List ContentBlock × List ToolCall × Nat) nameArgs =>
            let (content, tool_calls, ctr) := acc
            let id := mkCallId gen ctr
            (content ++ [ContentBlock.toolUse id nameArgs.1 nameArgs.2],
             tool_calls ++ [ToolCall.mk id nameArgs.1 nameArgs.2], ctr + 1))
          acc).2.1,
        ∃ k, ctr0 ≤ k ∧ call.id = mkCallId gen k) ∧
      (∀ bid ∈ blockToolIds (fn_calls.foldl
          (fun (acc : List ContentBlock × List ToolCall × Nat) nameArgs =>
            let (content, tool_calls, ctr) := acc
            let id := mkCallId gen ctr
            (content ++ [ContentBlock.toolUse id nameArgs.1 nameArgs.2],
             tool_calls ++ [ToolCall.mk id nameArgs.1 nameArgs.2], ctr + 1))
          acc).1,
        ∃ k, ctr0 ≤ k ∧ bid = mkCallId gen k) := by
  intro fn_calls
  induction fn_calls with
  | nil =>
    intro acc h1 h2 h3
    exact ⟨h2, h3⟩
  | cons na rest ih =>
    intro acc h1 h2 h3
    rcases acc with ⟨content, tcs, c⟩
    dsimp only at h1 h2 h3
    rw [List.foldl_cons]
    apply ih
    · dsimp only
      omega
    · intro call hc
      dsimp only at hc
      rw [List.mem_append] at hc
      rcases hc with hc | hc
      · exact h2 call hc
      · rw [List.mem_singleton] at hc
        subst hc
        exact ⟨c, h1, rfl⟩
    · intro bid hb
      dsimp only at hb
      rw [blockToolIds_append] at hb
      rw [List.mem_append] at hb
      rcases hb with hb | hb
      · exact h3 bid hb
      · rw [show blockToolIds [ContentBlock.toolUse (mkCallId gen c) na.1 na.2]
            = [mkCallId gen c] from rfl, List.mem_singleton] at hb
        subst hb
        exact ⟨c, h1, rfl⟩

/-- C10: in the Gemini streaming adapter (with an injective uuid supply),
every tool-call id observed in the emitted `ToolUseStart`/`ToolUseEnd`
events is distinct from every tool-call id the returned
`CompletionResponse` assigns, both in `tool_calls` and in the `ToolUse`
content blocks — the response ids are drawn from the uuid supply a second
time, after all event ids. -/
theorem gemini_stream_fresh_ids (gen : Nat → String)
    (hinj : Function.Injective gen) (ctr : Nat) (chunks : List String) :
    ∀ id ∈ eventToolIds (geminiStreamRun gen ctr chunks).1,
      (∀ call ∈ (geminiStreamRun gen ctr chunks).2.1.tool_calls, id ≠ call.id) ∧
      (∀ bid ∈ blockToolIds (geminiStreamRun gen ctr chunks).2.1.content,
        id ≠ bid) := by
  obtain ⟨hle, hrange, hcnt, hcc, hprec⟩ := geminiStreamRun_inv gen hinj ctr chunks
  intro id hid
  have hid2 : id ∈ eventToolIds
      (chunks.foldl (geminiProcessChunk gen) (geminiInitState ctr)).events := by
    obtain ⟨sr, hev⟩ := geminiFinalize_events gen
      (chunks.foldl (geminiProcessChunk gen) (geminiInitState ctr))
    have hrun : (geminiStreamRun gen ctr chunks).1
        = (chunks.foldl (geminiProcessChunk gen) (geminiInitState ctr)).events
          ++ [StreamEvent.contentComplete sr
              (chunks.foldl (geminiProcessChunk gen) (geminiInitState ctr)).usage] :=
      hev
    rw [hrun, eventToolIds_append,
      show eventToolIds [StreamEvent.contentComplete sr
        (chunks.foldl (geminiProcessChunk gen) (geminiInitState ctr)).usage]
        = [] from rfl, List.append_nil] at hid
    exact hid
  obtain ⟨k, hk1, hk2, hk3⟩ := hrange id hid2
  have hfin := geminiFinalCallsGo_ids gen
    (chunks.foldl (geminiProcessChunk gen) (geminiInitState ctr)).ctr
    (chunks.foldl (geminiProcessChunk gen) (geminiInitState ctr)).fn_calls
    ((if (chunks.foldl (geminiProcessChunk gen) (geminiInitState ctr)).text_content
          ≠ "" then
        [ContentBlock.text
          (chunks.foldl (geminiProcessChunk gen) (geminiInitState ctr)).text_content]
      else []),
      [], (chunks.foldl (geminiProcessChunk gen) (geminiInitState ctr)).ctr)
    (le_refl _)
    (by intro call hc; simp at hc)
    (by
      intro bid hb
      by_cases hc : (chunks.foldl (geminiProcessChunk gen)
          (geminiInitState ctr)).text_content ≠ ""
      · rw [if_pos hc] at hb
        simp [blockToolIds] at hb
      · rw [if_neg hc] at hb
        simp [blockToolIds] at hb)
  obtain ⟨htc, hbl⟩ := hfin
  constructor
  · intro call hc
    obtain ⟨k2, hk21, hk22⟩ := htc call hc
    intro hEq
    rw [hk3, hk22] at hEq
    have := hinj (mkCallId_inj gen _ _ hEq)
    omega
  · intro bid hb
    obtain ⟨k2, hk21, hk22⟩ := hbl bid hb
    intro hEq
    rw [hk3, hk22] at hEq
    have := hinj (mkCallId_inj gen _ _ hEq)
    omega

/-- Witness: the C10 theorem at `replGen` on a one-chunk stream carrying a
`functionCall` part: the streamed id `call_` differs from the response's
freshly drawn ids. -/
theorem gemini_stream_fresh_ids_witness :
    (∀ call ∈ (geminiStreamRun replGen 0 [geminiStopToolChunk]).2.1.tool_calls,
      ("call_" : String) ≠ call.id) ∧
    (∀ bid ∈ blockToolIds
        (geminiStreamRun replGen 0 [geminiStopToolChunk]).2.1.content,
      ("call_" : String) ≠ bid) :=
  gemini_stream_fresh_ids replGen
    (fun a b h => by
      have hd : List.replicate a 'x' = List.replicate b 'x' := congrArg String.data h
      simpa using congrArg List.length hd)
    0 [geminiStopToolChunk] "call_" (by decide)

end Openfang
